import Mathlib

/-!
Shallow embedding of the VexFlow layout code relevant to the collision
resolution engine (modifier `format` functions), tuplet vertical placement,
metric-table lookup, and the (spec-modelled) justification engine.

Numbers are modelled by `ℚ`: the source operates on JS numbers with
addition, subtraction, `Math.max`/`Math.min` and division by constants,
all of which are exact here.
-/

namespace VexFlow

/-- Positions from `modifier.ts` (`ModifierPosition`): CENTER, LEFT, RIGHT,
ABOVE, BELOW. -/
inductive ModifierPosition where
  | center
  | left
  | right
  | above
  | below
deriving DecidableEq, Repr

/-- `ModifierContextState` from `modifiercontext.ts`: the shared layout
state threaded through every category `format` function. -/
structure ModifierContextState where
  leftShift : ℚ
  rightShift : ℚ
  textLine : ℚ
  topTextLine : ℚ
deriving DecidableEq, Repr

/-- The fields of an `Ornament` read and written by `Ornament.format`
(src/unnamed/part_004): position, `xShift`, `width` (`getWidth()` returns the
`width` field) and the text line set by `setTextLine`. -/
structure Ornament where
  position : ModifierPosition
  xShift : ℚ
  width : ℚ
  textLine : ℚ
deriving DecidableEq, Repr

instance : Inhabited Ornament := ⟨⟨ModifierPosition.center, 0, 0, 0⟩⟩

/-- Local accumulator of `Ornament.format`: the local `width`, `rightShift`,
`leftShift` variables plus the mutable state. -/
structure OrnAcc where
  width : ℚ
  rightShift : ℚ
  leftShift : ℚ
  state : ModifierContextState
deriving DecidableEq, Repr

/-- One iteration of the `for` loop of `Ornament.format`
(src/unnamed/part_004 lines 60-81), parametrised by
`Ornament.minPadding` (the looked-up `NoteHead.minPadding` metric).
The local constant `increment` of the source is `2`. -/
def ornamentStep (minPadding : ℚ) (a : OrnAcc) (o : Ornament) : OrnAcc × Ornament :=
  if o.position = ModifierPosition.right then
    ({ a with rightShift := a.rightShift + o.width + minPadding },
     { o with xShift := o.xShift + (a.rightShift + 2) })
  else if o.position = ModifierPosition.left then
    ({ a with leftShift := a.leftShift + o.width + minPadding },
     { o with xShift := o.xShift - (a.leftShift + o.width + 2) })
  else if o.position = ModifierPosition.above then
    ({ a with width := max o.width a.width,
              state := { a.state with topTextLine := a.state.topTextLine + 2 } },
     { o with textLine := a.state.topTextLine })
  else
    ({ a with width := max o.width a.width,
              state := { a.state with textLine := a.state.textLine + 2 } },
     { o with textLine := a.state.textLine })

/-- The whole `for` loop of `Ornament.format`, returning the final
accumulator and the mutated ornaments in order. -/
def ornamentLoop (minPadding : ℚ) (a : OrnAcc) : List Ornament → OrnAcc × List Ornament
  | [] => (a, [])
  | o :: os =>
    let sa := ornamentStep minPadding a o
    let r := ornamentLoop minPadding sa.1 os
    (r.1, sa.2 :: r.2)

/-- `Ornament.format(ornaments, state)` (src/unnamed/part_004 lines 53-88).
A missing (`undefined`) array is modelled by `none`.  Returns the boolean
result, the mutated ornaments, and the mutated state. -/
def Ornament.format (minPadding : ℚ) (ornaments : Option (List Ornament))
    (state : ModifierContextState) : Bool × List Ornament × ModifierContextState :=
  match ornaments with
  | none => (false, [], state)
  | some [] => (false, [], state)
  | some os =>
    let a0 : OrnAcc := ⟨0, state.rightShift, state.leftShift, state⟩
    let r := ornamentLoop minPadding a0 os
    (true, r.2,
      { r.1.state with
          leftShift := r.1.leftShift + r.1.width / 2,
          rightShift := r.1.rightShift + r.1.width / 2 })

/-- Sum of `width + minPadding` over the ornaments of a list positioned at `p`. -/
def sideSum (minPadding : ℚ) (p : ModifierPosition) : List Ornament → ℚ
  | [] => 0
  | o :: l => (if o.position = p then o.width + minPadding else 0) + sideSum minPadding p l

/-- Closed form of the running right reserve: the state's `rightShift` plus
`width + minPadding` for every RIGHT-positioned ornament among the first `i`. -/
def rightReserve (minPadding r0 : ℚ) (os : List Ornament) (i : ℕ) : ℚ :=
  r0 + sideSum minPadding ModifierPosition.right (os.take i)

/-- Closed form of the running left reserve: the state's `leftShift` plus
`width + minPadding` for every LEFT-positioned ornament among the first `i`. -/
def leftReserve (minPadding l0 : ℚ) (os : List Ornament) (i : ℕ) : ℚ :=
  l0 + sideSum minPadding ModifierPosition.left (os.take i)

lemma sideSum_append (mp : ℚ) (p : ModifierPosition) (l1 l2 : List Ornament) :
    sideSum mp p (l1 ++ l2) = sideSum mp p l1 + sideSum mp p l2 := by
  induction l1 with
  | nil => simp [sideSum]
  | cons o l ih => simp [sideSum, ih]; ring

lemma ornamentLoop_length (mp : ℚ) (a : OrnAcc) (os : List Ornament) :
    ((ornamentLoop mp a os).2).length = os.length := by
  induction os generalizing a with
  | nil => rfl
  | cons o os ih => simp [ornamentLoop, ih]

/-- The accumulator's running shifts after one loop step of `Ornament.format`. -/
lemma ornamentStep_shifts (mp : ℚ) (a : OrnAcc) (o : Ornament) :
    (ornamentStep mp a o).1.rightShift
      = a.rightShift + (if o.position = ModifierPosition.right then o.width + mp else 0)
    ∧ (ornamentStep mp a o).1.leftShift
      = a.leftShift + (if o.position = ModifierPosition.left then o.width + mp else 0) := by
  rcases o with ⟨pos, x, w, t⟩
  cases pos <;> simp [ornamentStep] <;> ring

/-- Correspondence between the loop of `Ornament.format` and the closed-form
running reserves: every RIGHT ornament is shifted by the reserve accumulated so
far plus `2`, every LEFT ornament is shifted left past the accumulated reserve
plus its own width plus `2`. -/
lemma ornamentLoop_xShift (mp : ℚ) :
    ∀ (os : List Ornament) (a : OrnAcc) (i : ℕ), i < os.length →
    (((os.getD i default).position = ModifierPosition.right →
       (((ornamentLoop mp a os).2).getD i default).xShift
         = (os.getD i default).xShift
           + (a.rightShift + sideSum mp ModifierPosition.right (os.take i)) + 2)
     ∧ ((os.getD i default).position = ModifierPosition.left →
       (((ornamentLoop mp a os).2).getD i default).xShift
         = (os.getD i default).xShift
           - ((a.leftShift + sideSum mp ModifierPosition.left (os.take i))
              + (os.getD i default).width + 2)))
  | [], _, i, hi => absurd hi (by simp)
  | o :: os, a, 0, _ => by
    simp only [List.getD_cons_zero, List.take_zero]
    constructor
    · intro hp
      simp [ornamentLoop, ornamentStep, hp, sideSum]
      ring
    · intro hp
      have hpr : ¬ o.position = ModifierPosition.right := by
        rw [hp]; intro h; cases h
      simp [ornamentLoop, ornamentStep, hp, hpr, sideSum]
  | o :: os, a, i + 1, hi => by
    have hilen : i < os.length := by simpa using hi
    have IH := ornamentLoop_xShift mp os (ornamentStep mp a o).1 i hilen
    have hsh := ornamentStep_shifts mp a o
    constructor
    · intro hp
      have h1 := IH.1 (by simpa using hp)
      simp only [ornamentLoop, List.getD_cons_succ, List.take_succ_cons, sideSum] at *
      rw [h1, hsh.1]
      ring
    · intro hp
      have h1 := IH.2 (by simpa using hp)
      simp only [ornamentLoop, List.getD_cons_succ, List.take_succ_cons, sideSum] at *
      rw [h1, hsh.2]
      ring

/-- C1: in `Ornament.format`, every RIGHT-positioned ornament has its x-shift
increased by the current right reserve plus a fixed padding of 2, and the right
reserve is then extended by that ornament's width plus the minimum padding
constant; symmetrically every LEFT-positioned ornament is shifted left past the
current left reserve (plus its width plus 2) and the left reserve is extended
by its width plus the minimum padding constant. -/
theorem C1_ornament_reserves (minPadding : ℚ) (st : ModifierContextState)
    (os : List Ornament) (i : ℕ) (hi : i < os.length) :
    ((os.getD i default).position = ModifierPosition.right →
       (((Ornament.format minPadding (some os) st).2.1).getD i default).xShift
         = (os.getD i default).xShift + rightReserve minPadding st.rightShift os i + 2
       ∧ rightReserve minPadding st.rightShift os (i + 1)
         = rightReserve minPadding st.rightShift os i + (os.getD i default).width + minPadding)
    ∧ ((os.getD i default).position = ModifierPosition.left →
       (((Ornament.format minPadding (some os) st).2.1).getD i default).xShift
         = (os.getD i default).xShift
           - (leftReserve minPadding st.leftShift os i + (os.getD i default).width + 2)
       ∧ leftReserve minPadding st.leftShift os (i + 1)
         = leftReserve minPadding st.leftShift os i + (os.getD i default).width + minPadding) := by
  have hne : os ≠ [] := by
    intro h; rw [h] at hi; exact absurd hi (by simp)
  obtain ⟨o, os0, rfl⟩ : ∃ o os0, os = o :: os0 := by
    cases os with
    | nil => exact absurd rfl hne
    | cons o os0 => exact ⟨o, os0, rfl⟩
  have hmain := ornamentLoop_xShift minPadding (o :: os0)
      ⟨0, st.rightShift, st.leftShift, st⟩ i hi
  have htake : (o :: os0).take (i + 1) = (o :: os0).take i ++ [(o :: os0).getD i default] := by
    rw [List.take_succ]
    have : (o :: os0)[i]? = some ((o :: os0).getD i default) := by
      rw [List.getD_eq_getElem?_getD, List.getElem?_eq_getElem hi]
      simp
    rw [this]
    rfl
  constructor
  · intro hp
    refine ⟨?_, ?_⟩
    · have := hmain.1 hp
      simpa [Ornament.format, rightReserve] using this
    · rw [rightReserve, rightReserve, htake, sideSum_append]
      simp only [sideSum, hp, if_true, add_zero]
      ring
  · intro hp
    refine ⟨?_, ?_⟩
    · have := hmain.2 hp
      simpa [Ornament.format, leftReserve] using this
    · rw [leftReserve, leftReserve, htake, sideSum_append]
      simp only [sideSum, hp, if_true, add_zero]
      ring

/-- The spec's example inputs: two left-side annotations of width 6 and 8 on
one anchor. -/
def twoLeftOrnaments : List Ornament :=
  [⟨ModifierPosition.left, 0, 6, 0⟩, ⟨ModifierPosition.left, 0, 8, 0⟩]

/-- Witness for C1 at the spec's example: the second left ornament of width 8
is placed outside the reserve left by the first (width 6), and the reserve
grows by width + minPadding. -/
theorem C1_ornament_reserves_witness :
    (twoLeftOrnaments.getD 1 default).position = ModifierPosition.left
    ∧ ((((Ornament.format 2 (some twoLeftOrnaments) ⟨0, 0, 0, 0⟩).2.1).getD 1 default).xShift
         = (twoLeftOrnaments.getD 1 default).xShift
           - (leftReserve 2 (ModifierContextState.leftShift ⟨0, 0, 0, 0⟩) twoLeftOrnaments 1
              + (twoLeftOrnaments.getD 1 default).width + 2)
       ∧ leftReserve 2 (ModifierContextState.leftShift ⟨0, 0, 0, 0⟩) twoLeftOrnaments 2
         = leftReserve 2 (ModifierContextState.leftShift ⟨0, 0, 0, 0⟩) twoLeftOrnaments 1
           + (twoLeftOrnaments.getD 1 default).width + 2) :=
  ⟨by decide,
   (C1_ornament_reserves 2 ⟨0, 0, 0, 0⟩ twoLeftOrnaments 1 (by decide)).2 (by decide)⟩

/-- Applying a loop step of `Ornament.format` to an ornament that has already
been stepped once (with the same incoming accumulator) yields the same
accumulator but adds the x-delta a second time. -/
lemma ornamentStep_rerun (mp : ℚ) (a : OrnAcc) (o : Ornament) :
    ornamentStep mp a (ornamentStep mp a o).2
      = ((ornamentStep mp a o).1,
         { (ornamentStep mp a o).2 with
             xShift := 2 * (ornamentStep mp a o).2.xShift - o.xShift }) := by
  rcases o with ⟨pos, x, w, t⟩
  cases pos <;> simp [ornamentStep] <;> ring

/-- Re-running the `Ornament.format` loop on its own output (with the same
initial accumulator) keeps the final accumulator and every text line, but
applies each x-shift delta a second time. -/
lemma ornamentLoop_rerun (mp : ℚ) :
    ∀ (os : List Ornament) (a : OrnAcc),
    ornamentLoop mp a (ornamentLoop mp a os).2
      = ((ornamentLoop mp a os).1,
         List.zipWith (fun (o o1 : Ornament) => { o1 with xShift := 2 * o1.xShift - o.xShift }) os
           (ornamentLoop mp a os).2)
  | [], _ => rfl
  | o :: os, a => by
    have hstep := ornamentStep_rerun mp a o
    have IH := ornamentLoop_rerun mp os (ornamentStep mp a o).1
    simp only [ornamentLoop, List.zipWith_cons_cons]
    rw [hstep]
    simp only [ornamentLoop]
    rw [IH]

/-- Unfolding of `Ornament.format` on a non-empty list of ornaments. -/
lemma ornamentFormat_of_ne_nil (mp : ℚ) (st : ModifierContextState)
    (os : List Ornament) (h : os ≠ []) :
    Ornament.format mp (some os) st
      = (true, (ornamentLoop mp ⟨0, st.rightShift, st.leftShift, st⟩ os).2,
         { (ornamentLoop mp ⟨0, st.rightShift, st.leftShift, st⟩ os).1.state with
             leftShift := (ornamentLoop mp ⟨0, st.rightShift, st.leftShift, st⟩ os).1.leftShift
               + (ornamentLoop mp ⟨0, st.rightShift, st.leftShift, st⟩ os).1.width / 2,
             rightShift := (ornamentLoop mp ⟨0, st.rightShift, st.leftShift, st⟩ os).1.rightShift
               + (ornamentLoop mp ⟨0, st.rightShift, st.leftShift, st⟩ os).1.width / 2 }) := by
  cases os with
  | nil => exact absurd rfl h
  | cons o os0 => rfl

/-- C6 counterexample: `Ornament.format` mutates `xShift` with `+=`, so
invoking it a second time on the same (already formatted) ornaments with a
fresh copy of the initial state does not reproduce the first run's x-shifts:
one RIGHT ornament of width 1 gets `xShift = 2` on the first run and
`xShift = 4` on the second. -/
theorem C6_rerun_counterexample :
    (((Ornament.format 2 (some [⟨ModifierPosition.right, 0, 1, 0⟩]) ⟨0, 0, 0, 0⟩).2.1).getD 0
        default).xShift = 2
    ∧ (((Ornament.format 2
          (some ((Ornament.format 2 (some [⟨ModifierPosition.right, 0, 1, 0⟩])
                    ⟨0, 0, 0, 0⟩).2.1))
          ⟨0, 0, 0, 0⟩).2.1).getD 0 default).xShift = 4 := by
  constructor <;>
    norm_num [Ornament.format, ornamentLoop, ornamentStep]

/-- C6 amended: re-running `Ornament.format` on the ornaments produced by a
first run, with an identical fresh copy of the initial state, reproduces the
final layout state and (because the zipped function keeps every other field)
every position, width and text line — but each ornament's x-shift delta is
applied a second time, so the new x-shift is `2·(first x-shift) − original
x-shift`; offsets coincide with the first run only when each delta is zero. -/
theorem C6_rerun_amended (mp : ℚ) (st : ModifierContextState) (os : List Ornament)
    (h : os ≠ []) :
    (Ornament.format mp (some ((Ornament.format mp (some os) st).2.1)) st).2.2
      = (Ornament.format mp (some os) st).2.2
    ∧ (Ornament.format mp (some ((Ornament.format mp (some os) st).2.1)) st).2.1
      = List.zipWith (fun (o o1 : Ornament) => { o1 with xShift := 2 * o1.xShift - o.xShift }) os
          ((Ornament.format mp (some os) st).2.1) := by
  have h1 : (Ornament.format mp (some os) st).2.1
      = (ornamentLoop mp ⟨0, st.rightShift, st.leftShift, st⟩ os).2 := by
    rw [ornamentFormat_of_ne_nil mp st os h]
  have hlen : ((ornamentLoop mp ⟨0, st.rightShift, st.leftShift, st⟩ os).2).length ≠ 0 := by
    rw [ornamentLoop_length]
    intro hc
    exact h (List.length_eq_zero.mp hc)
  have h2 : (ornamentLoop mp ⟨0, st.rightShift, st.leftShift, st⟩ os).2 ≠ [] := by
    intro hc
    rw [hc] at hlen
    exact hlen rfl
  have hrr := ornamentLoop_rerun mp os ⟨0, st.rightShift, st.leftShift, st⟩
  rw [h1, ornamentFormat_of_ne_nil mp st _ h2, ornamentFormat_of_ne_nil mp st os h]
  constructor
  · simp only [hrr]
  · simp only [hrr]

/-- Witness for C6's amended theorem at a concrete input. -/
theorem C6_rerun_amended_witness :
    (Ornament.format 2
        (some ((Ornament.format 2 (some [⟨ModifierPosition.right, 0, 1, 0⟩])
                  ⟨0, 0, 0, 0⟩).2.1)) ⟨0, 0, 0, 0⟩).2.2
      = (Ornament.format 2 (some [⟨ModifierPosition.right, 0, 1, 0⟩]) ⟨0, 0, 0, 0⟩).2.2
    ∧ (Ornament.format 2
        (some ((Ornament.format 2 (some [⟨ModifierPosition.right, 0, 1, 0⟩])
                  ⟨0, 0, 0, 0⟩).2.1)) ⟨0, 0, 0, 0⟩).2.1
      = List.zipWith (fun (o o1 : Ornament) => { o1 with xShift := 2 * o1.xShift - o.xShift })
          [⟨ModifierPosition.right, 0, 1, 0⟩]
          ((Ornament.format 2 (some [⟨ModifierPosition.right, 0, 1, 0⟩]) ⟨0, 0, 0, 0⟩).2.1) :=
  C6_rerun_amended 2 ⟨0, 0, 0, 0⟩ [⟨ModifierPosition.right, 0, 1, 0⟩] (by decide)

/-! ### ChordSymbol (src/unnamed/part_003) -/

/-- `SymbolModifiers` from src/unnamed/part_003: NONE, SUBSCRIPT, SUPERSCRIPT. -/
inductive SymbolModifiers where
  | NONE
  | SUBSCRIPT
  | SUPERSCRIPT
deriving DecidableEq, Repr

/-- `ChordSymbolHorizontalJustify` from src/unnamed/part_003. -/
inductive ChordSymbolHorizontalJustify where
  | LEFT
  | CENTER
  | RIGHT
  | CENTER_STEM
deriving DecidableEq, Repr

/-- `ChordSymbolVerticalJustify` from src/unnamed/part_003. -/
inductive ChordSymbolVerticalJustify where
  | TOP
  | BOTTOM
deriving DecidableEq, Repr

/-- The fields of a `ChordSymbolBlock` read and written by
`ChordSymbol.format`: `width` (`getWidth()`), `xShift` (`setXShift`),
the symbol modifier and `vAlign`. -/
structure ChordSymbolBlock where
  width : ℚ
  xShift : ℚ
  symbolModifier : SymbolModifiers
  vAlign : Bool
deriving DecidableEq, Repr

instance : Inhabited ChordSymbolBlock := ⟨⟨0, 0, SymbolModifiers.NONE, false⟩⟩

/-- `ChordSymbolBlock.isSuperscript`. -/
def ChordSymbolBlock.isSuperscript (b : ChordSymbolBlock) : Bool :=
  b.symbolModifier = SymbolModifiers.SUPERSCRIPT

/-- `ChordSymbolBlock.isSubscript`. -/
def ChordSymbolBlock.isSubscript (b : ChordSymbolBlock) : Bool :=
  b.symbolModifier = SymbolModifiers.SUBSCRIPT

/-- The data `ChordSymbol.format` reads from a symbol's attached note:
whether `isStemmableNote(note)` holds and `note.getGlyphWidth()`. -/
structure ChordNote where
  stemmable : Bool
  glyphWidth : ℚ
deriving DecidableEq, Repr

/-- The fields of a `ChordSymbol` used by `ChordSymbol.format`. -/
structure ChordSymbol where
  symbolBlocks : List ChordSymbolBlock
  vertical : ChordSymbolVerticalJustify
  horizontal : ChordSymbolHorizontalJustify
  textLine : ℚ
  width : ℚ
  note : ChordNote
deriving DecidableEq, Repr

instance : Inhabited ChordSymbol :=
  ⟨⟨[], ChordSymbolVerticalJustify.TOP, ChordSymbolHorizontalJustify.LEFT, 0, 0, ⟨false, 0⟩⟩⟩

/-- One iteration of the inner block loop of `ChordSymbol.format`
(src/unnamed/part_003 lines 160-184), without the `lineSpaces` update:
sets the block's x-shift to the running width, slides a subscript block
under an immediately preceding superscript block, and advances the
running width. -/
def chordBlockStep (prev : Option ChordSymbolBlock) (width : ℚ) (b : ChordSymbolBlock) :
    ChordSymbolBlock × ℚ :=
  match prev with
  | some p =>
    if b.isSubscript && p.isSuperscript then
      ({ b with xShift := width - p.width, vAlign := true },
       (width + (-p.width + (if p.width > b.width then p.width - b.width else 0))) + b.width)
    else ({ b with xShift := width }, width + b.width)
  | none => ({ b with xShift := width }, width + b.width)

/-- The inner block loop of `ChordSymbol.format`, threading the running
width, the two-line flag (the source's `lineSpaces = 2` assignment) and the
previous (already mutated) block. -/
def chordBlocksLoop (prev : Option ChordSymbolBlock) (width : ℚ) (twoLines : Bool) :
    List ChordSymbolBlock → List ChordSymbolBlock × ℚ × Bool
  | [] => ([], width, twoLines)
  | b :: rest =>
    let tl1 := twoLines || (b.isSuperscript || b.isSubscript)
    let r1 := chordBlockStep prev width b
    let r := chordBlocksLoop (some r1.1) r1.2 tl1 rest
    (r1.1 :: r.1, r.2)

/-- The accumulator of `ChordSymbol.format`: the local `leftWidth`,
`rightWidth`, `maxLeftGlyphWidth`, `maxRightGlyphWidth` variables and the
mutable state. -/
structure ChordSymbolAcc where
  leftWidth : ℚ
  rightWidth : ℚ
  maxLeftGlyphWidth : ℚ
  maxRightGlyphWidth : ℚ
  state : ModifierContextState
deriving DecidableEq, Repr

/-- One iteration of the outer symbol loop of `ChordSymbol.format`
(src/unnamed/part_003 lines 156-210). -/
def chordSymbolStep (minPadding : ℚ) (a : ChordSymbolAcc) (s : ChordSymbol) :
    ChordSymbolAcc × ChordSymbol :=
  let r := chordBlocksLoop none 0 false s.symbolBlocks
  let width := r.2.1
  let lineSpaces : ℚ := if r.2.2 then 2 else 1
  let tl : ℚ × ModifierContextState :=
    if s.vertical = ChordSymbolVerticalJustify.TOP then
      (a.state.topTextLine, { a.state with topTextLine := a.state.topTextLine + lineSpaces })
    else
      (a.state.textLine + 1, { a.state with textLine := a.state.textLine + lineSpaces + 1 })
  let a1 := { a with state := tl.2 }
  let a2 :=
    if s.note.stemmable then
      let glyphWidth := s.note.glyphWidth
      if s.horizontal = ChordSymbolHorizontalJustify.LEFT then
        { a1 with maxLeftGlyphWidth := max glyphWidth a1.maxLeftGlyphWidth,
                  leftWidth := max a1.leftWidth width + minPadding }
      else if s.horizontal = ChordSymbolHorizontalJustify.RIGHT then
        { a1 with maxRightGlyphWidth := max glyphWidth a1.maxRightGlyphWidth,
                  rightWidth := max a1.rightWidth width }
      else
        { a1 with leftWidth := max a1.leftWidth (width / 2) + minPadding,
                  rightWidth := max a1.rightWidth (width / 2),
                  maxLeftGlyphWidth := max (glyphWidth / 2) a1.maxLeftGlyphWidth,
                  maxRightGlyphWidth := max (glyphWidth / 2) a1.maxRightGlyphWidth }
    else a1
  (a2, { s with symbolBlocks := r.1, textLine := tl.1, width := width })

/-- The outer symbol loop of `ChordSymbol.format`. -/
def chordSymbolLoop (minPadding : ℚ) (a : ChordSymbolAcc) :
    List ChordSymbol → ChordSymbolAcc × List ChordSymbol
  | [] => (a, [])
  | s :: ss =>
    let sa := chordSymbolStep minPadding a s
    let r := chordSymbolLoop minPadding sa.1 ss
    (r.1, sa.2 :: r.2)

/-- The tail of `ChordSymbol.format` (src/unnamed/part_003 lines 211-219):
the left/right overlaps are clamped at 0 and added to the state's shifts. -/
def chordSymbolFinal (a : ChordSymbolAcc) : ModifierContextState :=
  let rightOverlap := min (max (a.rightWidth - a.maxRightGlyphWidth) 0)
                          (max (a.rightWidth - a.state.rightShift) 0)
  let leftOverlap := min (max (a.leftWidth - a.maxLeftGlyphWidth) 0)
                         (max (a.leftWidth - a.state.leftShift) 0)
  { a.state with leftShift := a.state.leftShift + leftOverlap,
                 rightShift := a.state.rightShift + rightOverlap }

/-- `ChordSymbol.format(symbols, state)` (src/unnamed/part_003 lines
147-220).  A missing (`undefined`) array is modelled by `none`. -/
def ChordSymbol.format (minPadding : ℚ) (symbols : Option (List ChordSymbol))
    (state : ModifierContextState) : Bool × List ChordSymbol × ModifierContextState :=
  match symbols with
  | none => (false, [], state)
  | some [] => (false, [], state)
  | some ss =>
    let a0 : ChordSymbolAcc := ⟨0, 0, 0, 0, state⟩
    let r := chordSymbolLoop minPadding a0 ss
    (true, r.2, chordSymbolFinal r.1)

/-- A chord symbol contains a superscript or subscript block. -/
def ChordSymbol.hasSupSub (s : ChordSymbol) : Bool :=
  s.symbolBlocks.any (fun b => b.isSuperscript || b.isSubscript)

/-- The inner block loop's two-line flag is set exactly when some block is a
superscript or a subscript. -/
lemma chordBlocksLoop_twoLines (prev : Option ChordSymbolBlock) (w : ℚ) (tl : Bool)
    (bs : List ChordSymbolBlock) :
    (chordBlocksLoop prev w tl bs).2.2
      = (tl || bs.any (fun b => b.isSuperscript || b.isSubscript)) := by
  induction bs generalizing prev w tl with
  | nil => simp [chordBlocksLoop]
  | cons b rest ih => simp [chordBlocksLoop, ih, Bool.or_assoc]

/-- Closed form of the running `topTextLine` counter: slots taken by the
TOP-justified symbols among a prefix (2 lines with a super/subscript, 1
without). -/
def topLineSum : List ChordSymbol → ℚ
  | [] => 0
  | s :: ss =>
    (if s.vertical = ChordSymbolVerticalJustify.TOP then (if s.hasSupSub then 2 else 1) else 0)
      + topLineSum ss

/-- Closed form of the running `textLine` counter: slots taken by the
BOTTOM-justified symbols among a prefix (2+1 lines with a super/subscript,
1+1 without). -/
def botLineSum : List ChordSymbol → ℚ
  | [] => 0
  | s :: ss =>
    (if s.vertical = ChordSymbolVerticalJustify.BOTTOM then
       (if s.hasSupSub then 2 else 1) + 1 else 0)
      + botLineSum ss

/-- How one iteration of the symbol loop moves the two text-line counters and
which line it assigns to the symbol. -/
lemma chordSymbolStep_counters (mp : ℚ) (a : ChordSymbolAcc) (s : ChordSymbol) :
    (chordSymbolStep mp a s).1.state.topTextLine
      = a.state.topTextLine
        + (if s.vertical = ChordSymbolVerticalJustify.TOP then
             (if s.hasSupSub then 2 else 1) else 0)
    ∧ (chordSymbolStep mp a s).1.state.textLine
      = a.state.textLine
        + (if s.vertical = ChordSymbolVerticalJustify.BOTTOM then
             (if s.hasSupSub then 2 else 1) + 1 else 0)
    ∧ (chordSymbolStep mp a s).2.textLine
      = (if s.vertical = ChordSymbolVerticalJustify.TOP then a.state.topTextLine
         else a.state.textLine + 1) := by
  have htl : (chordBlocksLoop none 0 false s.symbolBlocks).2.2 = s.hasSupSub := by
    rw [chordBlocksLoop_twoLines]
    simp [ChordSymbol.hasSupSub]
  rcases s with ⟨blocks, v, hz, t, w, note⟩
  rcases note with ⟨stm, gw⟩
  simp only [ChordSymbol.hasSupSub] at htl
  cases v <;> cases stm <;> cases hz <;>
    simp [chordSymbolStep, htl, ChordSymbol.hasSupSub] <;>
    (try split) <;> (try ring)

lemma topLineSum_append (l1 l2 : List ChordSymbol) :
    topLineSum (l1 ++ l2) = topLineSum l1 + topLineSum l2 := by
  induction l1 with
  | nil => simp [topLineSum]
  | cons s l ih => simp [topLineSum, ih]; ring

lemma botLineSum_append (l1 l2 : List ChordSymbol) :
    botLineSum (l1 ++ l2) = botLineSum l1 + botLineSum l2 := by
  induction l1 with
  | nil => simp [botLineSum]
  | cons s l ih => simp [botLineSum, ih]; ring

/-- Correspondence between the symbol loop of `ChordSymbol.format` and the
closed-form text-line counters. -/
lemma chordSymbolLoop_textLine (mp : ℚ) :
    ∀ (ss : List ChordSymbol) (a : ChordSymbolAcc) (i : ℕ), i < ss.length →
    (((chordSymbolLoop mp a ss).2).getD i default).textLine
      = (if (ss.getD i default).vertical = ChordSymbolVerticalJustify.TOP then
           a.state.topTextLine + topLineSum (ss.take i)
         else a.state.textLine + botLineSum (ss.take i) + 1)
  | [], _, i, hi => absurd hi (by simp)
  | s :: ss, a, 0, _ => by
    have h := (chordSymbolStep_counters mp a s).2.2
    simp only [List.getD_cons_zero, List.take_zero, chordSymbolLoop]
    simp [topLineSum, botLineSum, h]
  | s :: ss, a, i + 1, hi => by
    have hilen : i < ss.length := by simpa using hi
    have IH := chordSymbolLoop_textLine mp ss (chordSymbolStep mp a s).1 i hilen
    have hc := chordSymbolStep_counters mp a s
    simp only [chordSymbolLoop, List.getD_cons_succ, List.take_succ_cons,
      topLineSum, botLineSum]
    rw [IH, hc.1, hc.2.1]
    split <;> ring

/-- Unfolding of `ChordSymbol.format` on a non-empty list of symbols. -/
lemma chordSymbolFormat_of_ne_nil (mp : ℚ) (st : ModifierContextState)
    (ss : List ChordSymbol) (h : ss ≠ []) :
    ChordSymbol.format mp (some ss) st
      = (true, (chordSymbolLoop mp ⟨0, 0, 0, 0, st⟩ ss).2,
         chordSymbolFinal (chordSymbolLoop mp ⟨0, 0, 0, 0, st⟩ ss).1) := by
  cases ss with
  | nil => exact absurd rfl h
  | cons s ss0 => rfl

/-- C2 counterexample: a single BOTTOM-justified chord symbol with no
super/subscript blocks, starting from a zero state, is assigned text line 1
(not the current counter value 0) and the `textLine` counter advances to 2
(an increment of 2, not 1). -/
theorem C2_chordsymbol_counterexample :
    (((ChordSymbol.format 2
        (some [⟨[], ChordSymbolVerticalJustify.BOTTOM, ChordSymbolHorizontalJustify.LEFT,
                0, 0, ⟨false, 0⟩⟩])
        ⟨0, 0, 0, 0⟩).2.1).getD 0 default).textLine = 1
    ∧ (ChordSymbol.format 2
        (some [⟨[], ChordSymbolVerticalJustify.BOTTOM, ChordSymbolHorizontalJustify.LEFT,
                0, 0, ⟨false, 0⟩⟩])
        ⟨0, 0, 0, 0⟩).2.2.textLine = 2 := by
  constructor <;>
    simp [ChordSymbol.format, chordSymbolLoop, chordSymbolStep, chordBlocksLoop,
      chordSymbolFinal] <;>
    (try norm_num)

/-- C2 amended: `ChordSymbol.format` assigns each TOP symbol the current
`topTextLine` counter and advances that counter by 1 (no super/subscript
block) or 2 (with one); each BOTTOM symbol is assigned the current `textLine`
counter **plus 1** and the `textLine` counter advances by 2 (no
super/subscript block) or 3 (with one). -/
theorem C2_chordsymbol_textlines (mp : ℚ) (st : ModifierContextState)
    (ss : List ChordSymbol) (i : ℕ) (hi : i < ss.length) :
    (((ChordSymbol.format mp (some ss) st).2.1).getD i default).textLine
      = (if (ss.getD i default).vertical = ChordSymbolVerticalJustify.TOP then
           st.topTextLine + topLineSum (ss.take i)
         else st.textLine + botLineSum (ss.take i) + 1)
    ∧ topLineSum (ss.take (i + 1))
      = topLineSum (ss.take i)
        + (if (ss.getD i default).vertical = ChordSymbolVerticalJustify.TOP then
             (if (ss.getD i default).hasSupSub then 2 else 1) else 0)
    ∧ botLineSum (ss.take (i + 1))
      = botLineSum (ss.take i)
        + (if (ss.getD i default).vertical = ChordSymbolVerticalJustify.BOTTOM then
             (if (ss.getD i default).hasSupSub then 2 else 1) + 1 else 0) := by
  have hne : ss ≠ [] := by
    intro h; rw [h] at hi; exact absurd hi (by simp)
  have htake : ss.take (i + 1) = ss.take i ++ [ss.getD i default] := by
    rw [List.take_succ]
    have : ss[i]? = some (ss.getD i default) := by
      rw [List.getD_eq_getElem?_getD, List.getElem?_eq_getElem hi]
      simp
    rw [this]
    rfl
  refine ⟨?_, ?_, ?_⟩
  · rw [chordSymbolFormat_of_ne_nil mp st ss hne]
    have := chordSymbolLoop_textLine mp ss ⟨0, 0, 0, 0, st⟩ i hi
    simpa using this
  · rw [htake, topLineSum_append]
    simp [topLineSum]
  · rw [htake, botLineSum_append]
    simp [botLineSum]

/-- Witness for C2's amended theorem: a TOP symbol with a superscript block
followed by a BOTTOM symbol without one, from a zero initial state. -/
theorem C2_chordsymbol_textlines_witness :
    (((ChordSymbol.format 2
        (some [⟨[⟨3, 0, SymbolModifiers.SUPERSCRIPT, false⟩],
                ChordSymbolVerticalJustify.TOP, ChordSymbolHorizontalJustify.LEFT,
                0, 0, ⟨false, 0⟩⟩,
               ⟨[], ChordSymbolVerticalJustify.BOTTOM, ChordSymbolHorizontalJustify.LEFT,
                0, 0, ⟨false, 0⟩⟩])
        ⟨0, 0, 0, 0⟩).2.1).getD 1 default).textLine
      = (if (([⟨[⟨3, 0, SymbolModifiers.SUPERSCRIPT, false⟩],
                ChordSymbolVerticalJustify.TOP, ChordSymbolHorizontalJustify.LEFT,
                0, 0, ⟨false, 0⟩⟩,
               ⟨[], ChordSymbolVerticalJustify.BOTTOM, ChordSymbolHorizontalJustify.LEFT,
                0, 0, ⟨false, 0⟩⟩] : List ChordSymbol).getD 1 default).vertical
            = ChordSymbolVerticalJustify.TOP then
           (0 : ℚ) + topLineSum (([⟨[⟨3, 0, SymbolModifiers.SUPERSCRIPT, false⟩],
                ChordSymbolVerticalJustify.TOP, ChordSymbolHorizontalJustify.LEFT,
                0, 0, ⟨false, 0⟩⟩,
               ⟨[], ChordSymbolVerticalJustify.BOTTOM, ChordSymbolHorizontalJustify.LEFT,
                0, 0, ⟨false, 0⟩⟩] : List ChordSymbol).take 1)
         else (0 : ℚ) + botLineSum (([⟨[⟨3, 0, SymbolModifiers.SUPERSCRIPT, false⟩],
                ChordSymbolVerticalJustify.TOP, ChordSymbolHorizontalJustify.LEFT,
                0, 0, ⟨false, 0⟩⟩,
               ⟨[], ChordSymbolVerticalJustify.BOTTOM, ChordSymbolHorizontalJustify.LEFT,
                0, 0, ⟨false, 0⟩⟩] : List ChordSymbol).take 1) + 1) :=
  (C2_chordsymbol_textlines 2 ⟨0, 0, 0, 0⟩
    [⟨[⟨3, 0, SymbolModifiers.SUPERSCRIPT, false⟩],
      ChordSymbolVerticalJustify.TOP, ChordSymbolHorizontalJustify.LEFT, 0, 0, ⟨false, 0⟩⟩,
     ⟨[], ChordSymbolVerticalJustify.BOTTOM, ChordSymbolHorizontalJustify.LEFT,
      0, 0, ⟨false, 0⟩⟩] 1 (by decide)).1

lemma chordBlocksLoop_length (prev : Option ChordSymbolBlock) (w : ℚ) (tl : Bool)
    (bs : List ChordSymbolBlock) :
    ((chordBlocksLoop prev w tl bs).1).length = bs.length := by
  induction bs generalizing prev w tl with
  | nil => rfl
  | cons b rest ih => simp [chordBlocksLoop, ih]

/-- The `prev` block carried into the rest of the inner block loop: the last
block already processed, if any. -/
def lastPrev : Option ChordSymbolBlock → List ChordSymbolBlock → Option ChordSymbolBlock
  | prev, [] => prev
  | _, x :: l => lastPrev (some x) l

lemma lastPrev_cons (prev : Option ChordSymbolBlock) (x : ChordSymbolBlock)
    (l : List ChordSymbolBlock) :
    lastPrev prev (x :: l) = lastPrev (some x) l := rfl

/-- The inner block loop splits over list append, carrying the running width,
the two-line flag and the last processed block. -/
lemma chordBlocksLoop_append (l1 l2 : List ChordSymbolBlock)
    (prev : Option ChordSymbolBlock) (w : ℚ) (tl : Bool) :
    chordBlocksLoop prev w tl (l1 ++ l2)
      = ((chordBlocksLoop prev w tl l1).1
           ++ (chordBlocksLoop (lastPrev prev (chordBlocksLoop prev w tl l1).1)
                (chordBlocksLoop prev w tl l1).2.1
                (chordBlocksLoop prev w tl l1).2.2 l2).1,
         (chordBlocksLoop (lastPrev prev (chordBlocksLoop prev w tl l1).1)
            (chordBlocksLoop prev w tl l1).2.1
            (chordBlocksLoop prev w tl l1).2.2 l2).2) := by
  induction l1 generalizing prev w tl with
  | nil => simp [chordBlocksLoop, lastPrev]
  | cons b l1 ih =>
    simp only [List.cons_append, chordBlocksLoop, List.append_eq, lastPrev_cons]
    rw [ih]

lemma getD_append_right (l1 l2 : List ChordSymbolBlock) (j : ℕ) :
    (l1 ++ l2).getD (l1.length + j) default = l2.getD j default := by
  have h : l1.length + j - l1.length = j := by omega
  rw [List.getD_eq_getElem?_getD, List.getD_eq_getElem?_getD,
    List.getElem?_append_right (Nat.le_add_right _ _), h]

/-- Processing a superscript block followed immediately by a subscript block:
the subscript is slid back to the superscript's starting x (so they overlap),
its `vAlign` flag is set, and the running width advances by only the wider of
the two blocks. -/
lemma chordBlocksLoop_pair (prev : Option ChordSymbolBlock) (w : ℚ) (tl : Bool)
    (p b : ChordSymbolBlock) (post : List ChordSymbolBlock)
    (hp : p.isSuperscript = true) (hb : b.isSubscript = true) :
    ((chordBlocksLoop prev w tl (p :: b :: post)).1.getD 0 default).xShift = w
    ∧ ((chordBlocksLoop prev w tl (p :: b :: post)).1.getD 1 default).xShift = w
    ∧ ((chordBlocksLoop prev w tl (p :: b :: post)).1.getD 1 default).vAlign = true
    ∧ (chordBlocksLoop prev w tl [p, b]).2.1 = w + max p.width b.width := by
  simp only [ChordSymbolBlock.isSuperscript, decide_eq_true_eq] at hp
  have hpsub : p.isSubscript = false := by
    simp [ChordSymbolBlock.isSubscript, hp]
  have hpsup : ∀ x v, (ChordSymbolBlock.isSuperscript { p with xShift := x, vAlign := v }) = true := by
    intro x v
    simp [ChordSymbolBlock.isSuperscript, hp]
  refine ⟨?_, ?_, ?_, ?_⟩
  · cases prev <;> simp [chordBlocksLoop, chordBlockStep, hpsub]
  · cases prev <;>
      simp [chordBlocksLoop, chordBlockStep, hpsub, hb, hpsup] <;>
      ring
  · cases prev <;> simp [chordBlocksLoop, chordBlockStep, hpsub, hb, hpsup]
  · rcases le_or_lt p.width b.width with hle | hlt
    · rw [max_eq_right hle]
      cases prev <;>
        simp [chordBlocksLoop, chordBlockStep, hpsub, hb, hpsup, not_lt.mpr hle] <;>
        ring
    · rw [max_eq_left hlt.le]
      cases prev <;>
        simp [chordBlocksLoop, chordBlockStep, hpsub, hb, hpsup, hlt] <;>
        ring

/-- Each formatted chord symbol's blocks are those produced by the inner
block loop started fresh (width 0, no previous block) on its own blocks. -/
lemma chordSymbolLoop_blocks (mp : ℚ) :
    ∀ (ss : List ChordSymbol) (a : ChordSymbolAcc) (i : ℕ), i < ss.length →
    (((chordSymbolLoop mp a ss).2).getD i default).symbolBlocks
      = (chordBlocksLoop none 0 false (ss.getD i default).symbolBlocks).1
  | [], _, i, hi => absurd hi (by simp)
  | s :: ss, a, 0, _ => by
    simp [chordSymbolLoop, chordSymbolStep]
  | s :: ss, a, i + 1, hi => by
    have hilen : i < ss.length := by simpa using hi
    have IH := chordSymbolLoop_blocks mp ss (chordSymbolStep mp a s).1 i hilen
    simpa [chordSymbolLoop] using IH

/-- C7: in `ChordSymbol.format`, whenever a subscript block immediately
follows a superscript block, the formatted subscript's x-shift equals the
superscript's starting x (the running width entering the pair), its `vAlign`
flag is set, and the running width advances across the pair by only the wider
of the two block widths. -/
theorem C7_sub_overlays_sup (mp : ℚ) (st : ModifierContextState)
    (ss : List ChordSymbol) (k : ℕ) (hk : k < ss.length)
    (pre post : List ChordSymbolBlock) (p b : ChordSymbolBlock)
    (hblocks : (ss.getD k default).symbolBlocks = pre ++ p :: b :: post)
    (hp : p.isSuperscript = true) (hb : b.isSubscript = true) :
    ((((ChordSymbol.format mp (some ss) st).2.1.getD k default).symbolBlocks.getD
        pre.length default).xShift
      = (chordBlocksLoop none 0 false pre).2.1
     ∧ (((ChordSymbol.format mp (some ss) st).2.1.getD k default).symbolBlocks.getD
        (pre.length + 1) default).xShift
      = (chordBlocksLoop none 0 false pre).2.1
     ∧ (((ChordSymbol.format mp (some ss) st).2.1.getD k default).symbolBlocks.getD
        (pre.length + 1) default).vAlign = true)
    ∧ (chordBlocksLoop none 0 false (pre ++ [p, b])).2.1
      = (chordBlocksLoop none 0 false pre).2.1 + max p.width b.width := by
  have hne : ss ≠ [] := by
    intro h; rw [h] at hk; exact absurd hk (by simp)
  have hfmt : (ChordSymbol.format mp (some ss) st).2.1
      = (chordSymbolLoop mp ⟨0, 0, 0, 0, st⟩ ss).2 := by
    rw [chordSymbolFormat_of_ne_nil mp st ss hne]
  have hblk := chordSymbolLoop_blocks mp ss ⟨0, 0, 0, 0, st⟩ k hk
  have happ := chordBlocksLoop_append pre (p :: b :: post) none 0 false
  have hpair := chordBlocksLoop_pair
    (lastPrev none (chordBlocksLoop none 0 false pre).1)
    (chordBlocksLoop none 0 false pre).2.1
    (chordBlocksLoop none 0 false pre).2.2 p b post hp hb
  have hlen : ((chordBlocksLoop none 0 false pre).1).length = pre.length :=
    chordBlocksLoop_length none 0 false pre
  have hout : ((ChordSymbol.format mp (some ss) st).2.1.getD k default).symbolBlocks
      = (chordBlocksLoop none 0 false pre).1
        ++ (chordBlocksLoop (lastPrev none (chordBlocksLoop none 0 false pre).1)
              (chordBlocksLoop none 0 false pre).2.1
              (chordBlocksLoop none 0 false pre).2.2 (p :: b :: post)).1 := by
    rw [hfmt, hblk, hblocks, happ]
  have e0 : pre.length = ((chordBlocksLoop none 0 false pre).1).length + 0 := by
    rw [hlen]
    omega
  have e1 : pre.length + 1 = ((chordBlocksLoop none 0 false pre).1).length + 1 := by
    rw [hlen]
  constructor
  · refine ⟨?_, ?_, ?_⟩
    · rw [hout, e0, getD_append_right]
      exact hpair.1
    · rw [hout, e1, getD_append_right]
      exact hpair.2.1
    · rw [hout, e1, getD_append_right]
      exact hpair.2.2.1
  · have happ2 := chordBlocksLoop_append pre [p, b] none 0 false
    rw [happ2]
    exact hpair.2.2.2

/-- A superscript block of width 3 (witness input for C7). -/
def supBlock : ChordSymbolBlock := ⟨3, 0, SymbolModifiers.SUPERSCRIPT, false⟩

/-- A subscript block of width 2 (witness input for C7). -/
def subBlock : ChordSymbolBlock := ⟨2, 0, SymbolModifiers.SUBSCRIPT, false⟩

/-- A chord symbol whose blocks are a superscript followed by a subscript
(witness input for C7). -/
def supSubSymbol : ChordSymbol :=
  ⟨[supBlock, subBlock], ChordSymbolVerticalJustify.TOP,
   ChordSymbolHorizontalJustify.LEFT, 0, 0, ⟨false, 0⟩⟩

/-- Witness for C7 at a concrete symbol with a superscript of width 3
followed by a subscript of width 2. -/
theorem C7_sub_overlays_sup_witness :
    ((((ChordSymbol.format 2 (some [supSubSymbol]) ⟨0, 0, 0, 0⟩).2.1.getD 0
          default).symbolBlocks.getD (List.length ([] : List ChordSymbolBlock))
          default).xShift
      = (chordBlocksLoop none 0 false []).2.1
     ∧ (((ChordSymbol.format 2 (some [supSubSymbol]) ⟨0, 0, 0, 0⟩).2.1.getD 0
          default).symbolBlocks.getD (List.length ([] : List ChordSymbolBlock) + 1)
          default).xShift
      = (chordBlocksLoop none 0 false []).2.1
     ∧ (((ChordSymbol.format 2 (some [supSubSymbol]) ⟨0, 0, 0, 0⟩).2.1.getD 0
          default).symbolBlocks.getD (List.length ([] : List ChordSymbolBlock) + 1)
          default).vAlign = true)
    ∧ (chordBlocksLoop none 0 false ([] ++ [supBlock, subBlock])).2.1
      = (chordBlocksLoop none 0 false []).2.1 + max supBlock.width subBlock.width :=
  C7_sub_overlays_sup 2 ⟨0, 0, 0, 0⟩ [supSubSymbol] 0 (by decide) [] [] supBlock subBlock
    (by rfl) (by decide) (by decide)

/-! ### Bend (src/unnamed/part_003 lines 1044-1080) -/

/-- The data `Bend.format` reads from a bend's attached note:
`some s` when `isTabNote(note)` holds, with `s = note.leastString()`. -/
structure BendNote where
  tabLeastString : Option ℚ
deriving DecidableEq, Repr

/-- The fields of a `Bend` used by `Bend.format`: the widths of the phrase's
`BendElement`s, the cached `width`, `xShift`, the text line and the attached
note data. -/
structure Bend where
  phrase : List ℚ
  width : ℚ
  xShift : ℚ
  textLine : ℚ
  note : BendNote
deriving DecidableEq, Repr

/-- `Bend.updateWidth` (src/unnamed/part_003 lines 1167-1177): recalculate
`width` as the sum of the phrase element widths plus the current `xShift`. -/
def Bend.updateWidth (bd : Bend) : Bend :=
  { bd with width := bd.phrase.sum + bd.xShift }

/-- `Bend.setXShift` (src/unnamed/part_003 lines 1149-1154): set the shift,
then recalculate the width. -/
def Bend.setXShift (value : ℚ) (bd : Bend) : Bend :=
  Bend.updateWidth { bd with xShift := value }

/-- One iteration of the loop of `Bend.format`: raise `topTextLine` to the
tab string position if needed, set the x-shift from the previous width (which
recomputes the bend's width via `updateWidth`), record the new width, and set
the text line. -/
def bendStep (lastWidth : ℚ) (st : ModifierContextState) (bd : Bend) :
    (ℚ × ModifierContextState) × Bend :=
  let st1 :=
    match bd.note.tabLeastString with
    | some s =>
      if st.topTextLine < s - 1 then { st with topTextLine := s - 1 } else st
    | none => st
  let bd1 := Bend.setXShift (lastWidth + 5) bd
  ((bd1.width, st1), { bd1 with textLine := st1.topTextLine })

/-- The loop of `Bend.format`. -/
def bendLoop (lastWidth : ℚ) (st : ModifierContextState) :
    List Bend → (ℚ × ModifierContextState) × List Bend
  | [] => ((lastWidth, st), [])
  | bd :: rest =>
    let sa := bendStep lastWidth st bd
    let r := bendLoop sa.1.1 sa.1.2 rest
    (r.1, sa.2 :: r.2)

/-- `Bend.format(bends, state)` (src/unnamed/part_003 lines 1058-1080). -/
def Bend.format (bends : Option (List Bend)) (state : ModifierContextState) :
    Bool × List Bend × ModifierContextState :=
  match bends with
  | none => (false, [], state)
  | some [] => (false, [], state)
  | some bs =>
    let r := bendLoop 0 state bs
    (true, r.2,
      { r.1.2 with rightShift := r.1.2.rightShift + r.1.1,
                   topTextLine := r.1.2.topTextLine + 1 })

/-! ### Stroke (src/unnamed/part_005 lines 188-222) -/

/-- The attached note of a stroke as read by `Stroke.format`: a `StaveNote`
(with its key line and left displaced head px), a `TabNote` (with its string
position), or an unexpected instance (which makes the source throw). -/
inductive StrokeNote where
  | stave (line : ℚ) (shift : ℚ)
  | tab (str : ℚ)
  | other
deriving DecidableEq, Repr

/-- The fields of a `Stroke` used by `Stroke.format`. -/
structure Stroke where
  width : ℚ
  xShift : ℚ
  note : StrokeNote
deriving DecidableEq, Repr

/-- The `strokeList` construction of `Stroke.format`: `{line, shift}` per
stroke, failing (`RuntimeError`) on an unexpected note instance. -/
def strokeData : StrokeNote → Option (ℚ × ℚ)
  | StrokeNote.stave line shift => some (line, shift)
  | StrokeNote.tab str => some (str, 0)
  | StrokeNote.other => none

/-- Mapping `strokeData` over all strokes, failing if any fails. -/
def strokeListMap : List Stroke → Option (List ((ℚ × ℚ) × Stroke))
  | [] => some []
  | s :: rest =>
    match strokeData s.note, strokeListMap rest with
    | some d, some l => some ((d, s) :: l)
    | _, _ => none

/-- `Stroke.format(strokes, state)` (src/unnamed/part_005 lines 188-222).
Returns `none` when the source would throw a `RuntimeError`. -/
def Stroke.format (strokes : Option (List Stroke)) (state : ModifierContextState) :
    Option (Bool × List Stroke × ModifierContextState) :=
  let strokeSpacing : ℚ := 0
  match strokes with
  | none => some (false, [], state)
  | some [] => some (false, [], state)
  | some (s0 :: rest0) =>
    match strokeListMap (s0 :: rest0) with
    | none => none
    | some entries =>
      let strokeShift := state.leftShift
      let xShift := entries.foldl (fun acc e => max (e.2.width + strokeSpacing) acc) 0
      some (true,
        entries.map (fun e => { e.2 with xShift := strokeShift + e.1.2 }),
        { state with leftShift := state.leftShift + xShift })

/-! ### Parenthesis (src/src/parenthesis.ts lines 27-55) -/

/-- The fields of a `Parenthesis` used by `Parenthesis.format`, together with
the values `note.getLeftParenthesisPx(index)` / `note.getRightParenthesisPx(index)`
its attached note would report for its index. -/
structure Parenthesis where
  width : ℚ
  xShift : ℚ
  position : ModifierPosition
  leftPx : ℚ
  rightPx : ℚ
deriving DecidableEq, Repr

/-- One iteration of the loop of `Parenthesis.format`: `shift` starts at 0,
each positional branch raises the corresponding running width to
`shift + width` when that is not below it, and the x-shift is set to `shift`. -/
def parenStep (xl xr : ℚ) (p : Parenthesis) : (ℚ × ℚ) × Parenthesis :=
  let s0 : ℚ := 0
  let r1 : ℚ × ℚ :=
    if p.position = ModifierPosition.right then
      (p.rightPx, if xr > p.rightPx + p.width then xr else p.rightPx + p.width)
    else (s0, xr)
  let r2 : ℚ × ℚ :=
    if p.position = ModifierPosition.left then
      (p.leftPx, if xl > p.leftPx + p.width then xl else p.leftPx + p.width)
    else (r1.1, xl)
  ((r2.2, r1.2), { p with xShift := r2.1 })

/-- The loop of `Parenthesis.format`. -/
def parenLoop (xl xr : ℚ) : List Parenthesis → (ℚ × ℚ) × List Parenthesis
  | [] => ((xl, xr), [])
  | p :: rest =>
    let sa := parenStep xl xr p
    let r := parenLoop sa.1.1 sa.1.2 rest
    (r.1, sa.2 :: r.2)

/-- `Parenthesis.format(parentheses, state)` (src/src/parenthesis.ts lines
27-55). -/
def Parenthesis.format (parentheses : Option (List Parenthesis))
    (state : ModifierContextState) : Bool × List Parenthesis × ModifierContextState :=
  match parentheses with
  | none => (false, [], state)
  | some [] => (false, [], state)
  | some ps =>
    let r := parenLoop 0 0 ps
    (true, r.2,
      { state with leftShift := state.leftShift + r.1.1,
                   rightShift := state.rightShift + r.1.2 })

/-- C5: every category placement function (`ChordSymbol.format`,
`Bend.format`, `Ornament.format`, `Stroke.format`, `Parenthesis.format`),
called with an undefined (`none`) or empty annotation list, returns `false`
without failing and leaves the shared layout state exactly as it was. -/
theorem C5_empty_noop (mp : ℚ) (st : ModifierContextState) :
    (Ornament.format mp none st = (false, [], st)
     ∧ Ornament.format mp (some []) st = (false, [], st))
    ∧ (ChordSymbol.format mp none st = (false, [], st)
       ∧ ChordSymbol.format mp (some []) st = (false, [], st))
    ∧ (Bend.format none st = (false, [], st)
       ∧ Bend.format (some []) st = (false, [], st))
    ∧ (Stroke.format none st = some (false, [], st)
       ∧ Stroke.format (some []) st = some (false, [], st))
    ∧ (Parenthesis.format none st = (false, [], st)
       ∧ Parenthesis.format (some []) st = (false, [], st)) :=
  ⟨⟨rfl, rfl⟩, ⟨rfl, rfl⟩, ⟨rfl, rfl⟩, ⟨rfl, rfl⟩, ⟨rfl, rfl⟩⟩

/-- Witness for C5 at a concrete state (C5's statement quantifies only over
the state and the padding constant, both instantiated here). -/
theorem C5_empty_noop_witness :
    (Ornament.format 2 none ⟨1, 2, 3, 4⟩ = (false, [], ⟨1, 2, 3, 4⟩)
     ∧ Ornament.format 2 (some []) ⟨1, 2, 3, 4⟩ = (false, [], ⟨1, 2, 3, 4⟩))
    ∧ (ChordSymbol.format 2 none ⟨1, 2, 3, 4⟩ = (false, [], ⟨1, 2, 3, 4⟩)
       ∧ ChordSymbol.format 2 (some []) ⟨1, 2, 3, 4⟩ = (false, [], ⟨1, 2, 3, 4⟩))
    ∧ (Bend.format none ⟨1, 2, 3, 4⟩ = (false, [], ⟨1, 2, 3, 4⟩)
       ∧ Bend.format (some []) ⟨1, 2, 3, 4⟩ = (false, [], ⟨1, 2, 3, 4⟩))
    ∧ (Stroke.format none ⟨1, 2, 3, 4⟩ = some (false, [], ⟨1, 2, 3, 4⟩)
       ∧ Stroke.format (some []) ⟨1, 2, 3, 4⟩ = some (false, [], ⟨1, 2, 3, 4⟩))
    ∧ (Parenthesis.format none ⟨1, 2, 3, 4⟩ = (false, [], ⟨1, 2, 3, 4⟩)
       ∧ Parenthesis.format (some []) ⟨1, 2, 3, 4⟩ = (false, [], ⟨1, 2, 3, 4⟩)) :=
  C5_empty_noop 2 ⟨1, 2, 3, 4⟩

/-! ### Monotonicity of the shared layout state (C9) -/

/-- Componentwise order on the shared layout state: no accumulator field
decreases. -/
def stateLe (s1 s2 : ModifierContextState) : Prop :=
  s1.leftShift ≤ s2.leftShift ∧ s1.rightShift ≤ s2.rightShift
    ∧ s1.textLine ≤ s2.textLine ∧ s1.topTextLine ≤ s2.topTextLine

lemma stateLe_refl (s : ModifierContextState) : stateLe s s :=
  ⟨le_refl _, le_refl _, le_refl _, le_refl _⟩

lemma ornamentStep_mono (mp : ℚ) (hmp : 0 ≤ mp) (a : OrnAcc) (o : Ornament)
    (hw : 0 ≤ o.width) :
    a.width ≤ (ornamentStep mp a o).1.width
    ∧ a.rightShift ≤ (ornamentStep mp a o).1.rightShift
    ∧ a.leftShift ≤ (ornamentStep mp a o).1.leftShift
    ∧ a.state.textLine ≤ (ornamentStep mp a o).1.state.textLine
    ∧ a.state.topTextLine ≤ (ornamentStep mp a o).1.state.topTextLine
    ∧ (ornamentStep mp a o).1.state.leftShift = a.state.leftShift
    ∧ (ornamentStep mp a o).1.state.rightShift = a.state.rightShift := by
  rcases o with ⟨pos, x, w, t⟩
  simp only at hw
  cases pos <;>
    (simp [ornamentStep]
     repeat' apply And.intro
     all_goals linarith [le_max_right w a.width])

lemma ornamentLoop_mono (mp : ℚ) (hmp : 0 ≤ mp) :
    ∀ (os : List Ornament) (a : OrnAcc), (∀ o ∈ os, 0 ≤ o.width) →
    (a.width ≤ (ornamentLoop mp a os).1.width
     ∧ a.rightShift ≤ (ornamentLoop mp a os).1.rightShift
     ∧ a.leftShift ≤ (ornamentLoop mp a os).1.leftShift
     ∧ a.state.textLine ≤ (ornamentLoop mp a os).1.state.textLine
     ∧ a.state.topTextLine ≤ (ornamentLoop mp a os).1.state.topTextLine
     ∧ (ornamentLoop mp a os).1.state.leftShift = a.state.leftShift
     ∧ (ornamentLoop mp a os).1.state.rightShift = a.state.rightShift)
  | [], a, _ => ⟨le_refl _, le_refl _, le_refl _, le_refl _, le_refl _, rfl, rfl⟩
  | o :: os, a, h => by
    have hstep := ornamentStep_mono mp hmp a o (h o (by simp))
    have IH := ornamentLoop_mono mp hmp os (ornamentStep mp a o).1
      (fun x hx => h x (by simp [hx]))
    simp only [ornamentLoop]
    exact ⟨hstep.1.trans IH.1, hstep.2.1.trans IH.2.1, hstep.2.2.1.trans IH.2.2.1,
      hstep.2.2.2.1.trans IH.2.2.2.1, hstep.2.2.2.2.1.trans IH.2.2.2.2.1,
      IH.2.2.2.2.2.1.trans hstep.2.2.2.2.2.1,
      IH.2.2.2.2.2.2.trans hstep.2.2.2.2.2.2⟩

lemma ornamentFormat_mono (mp : ℚ) (hmp : 0 ≤ mp) (st : ModifierContextState)
    (os : Option (List Ornament)) (hw : ∀ o ∈ os.getD [], 0 ≤ o.width) :
    stateLe st (Ornament.format mp os st).2.2 := by
  match os with
  | none => exact stateLe_refl st
  | some [] => exact stateLe_refl st
  | some (o :: os0) =>
    have hm := ornamentLoop_mono mp hmp (o :: os0)
      ⟨0, st.rightShift, st.leftShift, st⟩ (by simpa using hw)
    have hw0 : (0 : ℚ) ≤ (ornamentLoop mp ⟨0, st.rightShift, st.leftShift, st⟩ (o :: os0)).1.width :=
      hm.1
    rw [ornamentFormat_of_ne_nil mp st (o :: os0) (by simp)]
    refine ⟨?_, ?_, ?_, ?_⟩
    · simp only
      have := hm.2.2.1
      simp only at this
      linarith
    · simp only
      have := hm.2.1
      simp only at this
      linarith
    · simpa using hm.2.2.2.1
    · simpa using hm.2.2.2.2.1

lemma add_min_max_nonneg (x y z : ℚ) : x ≤ x + min (max y 0) (max z 0) := by
  have h : (0 : ℚ) ≤ min (max y 0) (max z 0) := le_min (le_max_right _ _) (le_max_right _ _)
  linarith

lemma chordSymbolStep_shifts_eq (mp : ℚ) (a : ChordSymbolAcc) (s : ChordSymbol) :
    (chordSymbolStep mp a s).1.state.leftShift = a.state.leftShift
    ∧ (chordSymbolStep mp a s).1.state.rightShift = a.state.rightShift := by
  rcases s with ⟨blocks, v, hz, t, w, note⟩
  rcases note with ⟨stm, gw⟩
  cases v <;> cases stm <;> cases hz <;> simp [chordSymbolStep]

lemma chordSymbolLoop_state_mono (mp : ℚ) :
    ∀ (ss : List ChordSymbol) (a : ChordSymbolAcc),
    ((chordSymbolLoop mp a ss).1.state.leftShift = a.state.leftShift
     ∧ (chordSymbolLoop mp a ss).1.state.rightShift = a.state.rightShift
     ∧ a.state.textLine ≤ (chordSymbolLoop mp a ss).1.state.textLine
     ∧ a.state.topTextLine ≤ (chordSymbolLoop mp a ss).1.state.topTextLine)
  | [], a => ⟨rfl, rfl, le_refl _, le_refl _⟩
  | s :: ss, a => by
    have hsh := chordSymbolStep_shifts_eq mp a s
    have hct := chordSymbolStep_counters mp a s
    have IH := chordSymbolLoop_state_mono mp ss (chordSymbolStep mp a s).1
    have htop : a.state.topTextLine ≤ (chordSymbolStep mp a s).1.state.topTextLine := by
      rw [hct.1]
      have : (0 : ℚ) ≤ (if s.vertical = ChordSymbolVerticalJustify.TOP then
          (if s.hasSupSub then 2 else 1) else 0) := by
        split
        · split <;> norm_num
        · exact le_refl 0
      linarith
    have htxt : a.state.textLine ≤ (chordSymbolStep mp a s).1.state.textLine := by
      rw [hct.2.1]
      have : (0 : ℚ) ≤ (if s.vertical = ChordSymbolVerticalJustify.BOTTOM then
          (if s.hasSupSub then 2 else 1) + 1 else 0) := by
        split
        · split <;> norm_num
        · exact le_refl 0
      linarith
    simp only [chordSymbolLoop]
    exact ⟨IH.1.trans hsh.1, IH.2.1.trans hsh.2, htxt.trans IH.2.2.1,
      htop.trans IH.2.2.2⟩

lemma chordSymbolFormat_mono (mp : ℚ) (st : ModifierContextState)
    (ss : Option (List ChordSymbol)) :
    stateLe st (ChordSymbol.format mp ss st).2.2 := by
  match ss with
  | none => exact stateLe_refl st
  | some [] => exact stateLe_refl st
  | some (s :: ss0) =>
    have hm := chordSymbolLoop_state_mono mp (s :: ss0) ⟨0, 0, 0, 0, st⟩
    rw [chordSymbolFormat_of_ne_nil mp st (s :: ss0) (by simp)]
    refine ⟨?_, ?_, ?_, ?_⟩
    · simp only [chordSymbolFinal]
      rw [hm.1]
      exact add_min_max_nonneg _ _ _
    · simp only [chordSymbolFinal]
      rw [hm.2.1]
      exact add_min_max_nonneg _ _ _
    · simpa [chordSymbolFinal] using hm.2.2.1
    · simpa [chordSymbolFinal] using hm.2.2.2

lemma bendStep_state (lw : ℚ) (st : ModifierContextState) (bd : Bend) :
    st.topTextLine ≤ (bendStep lw st bd).1.2.topTextLine
    ∧ (bendStep lw st bd).1.2.leftShift = st.leftShift
    ∧ (bendStep lw st bd).1.2.rightShift = st.rightShift
    ∧ (bendStep lw st bd).1.2.textLine = st.textLine
    ∧ (bendStep lw st bd).1.1 = bd.phrase.sum + (lw + 5) := by
  rcases bd with ⟨ph, w, x, t, note⟩
  rcases note with ⟨ls⟩
  cases ls with
  | none => exact ⟨le_refl _, rfl, rfl, rfl, rfl⟩
  | some s =>
    by_cases h : st.topTextLine < s - 1
    · simp [bendStep, Bend.setXShift, Bend.updateWidth, h]
      linarith
    · simp [bendStep, Bend.setXShift, Bend.updateWidth, h]

lemma bendLoop_mono :
    ∀ (bs : List Bend) (lw : ℚ) (st : ModifierContextState), 0 ≤ lw →
    (∀ b ∈ bs, 0 ≤ b.phrase.sum) →
    (0 ≤ (bendLoop lw st bs).1.1
     ∧ st.topTextLine ≤ (bendLoop lw st bs).1.2.topTextLine
     ∧ (bendLoop lw st bs).1.2.leftShift = st.leftShift
     ∧ (bendLoop lw st bs).1.2.rightShift = st.rightShift
     ∧ (bendLoop lw st bs).1.2.textLine = st.textLine)
  | [], lw, st, hlw, _ => ⟨hlw, le_refl _, rfl, rfl, rfl⟩
  | bd :: bs, lw, st, hlw, h => by
    have hstep := bendStep_state lw st bd
    have hw : 0 ≤ (bendStep lw st bd).1.1 := by
      rw [hstep.2.2.2.2]
      have hph := h bd (by simp)
      linarith
    have IH := bendLoop_mono bs (bendStep lw st bd).1.1 (bendStep lw st bd).1.2 hw
      (fun x hx => h x (by simp [hx]))
    simp only [bendLoop]
    exact ⟨IH.1, hstep.1.trans IH.2.1, IH.2.2.1.trans hstep.2.1,
      IH.2.2.2.1.trans hstep.2.2.1, IH.2.2.2.2.trans hstep.2.2.2.1⟩

lemma bendFormat_mono (st : ModifierContextState) (bs : Option (List Bend))
    (hw : ∀ b ∈ bs.getD [], 0 ≤ b.phrase.sum) :
    stateLe st (Bend.format bs st).2.2 := by
  match bs with
  | none => exact stateLe_refl st
  | some [] => exact stateLe_refl st
  | some (b :: bs0) =>
    have hm := bendLoop_mono (b :: bs0) 0 st (le_refl 0) (by simpa using hw)
    show stateLe st
      { (bendLoop 0 st (b :: bs0)).1.2 with
          rightShift := (bendLoop 0 st (b :: bs0)).1.2.rightShift + (bendLoop 0 st (b :: bs0)).1.1,
          topTextLine := (bendLoop 0 st (b :: bs0)).1.2.topTextLine + 1 }
    refine ⟨?_, ?_, ?_, ?_⟩
    · simp only
      rw [hm.2.2.1]
    · simp only
      have := hm.2.2.2.1
      linarith [hm.1]
    · simp only
      rw [hm.2.2.2.2]
    · simp only
      linarith [hm.2.1]

lemma foldl_max_nonneg (entries : List ((ℚ × ℚ) × Stroke)) :
    ∀ (acc : ℚ), 0 ≤ acc →
    0 ≤ entries.foldl (fun acc e => max (e.2.width + 0) acc) acc := by
  induction entries with
  | nil => intro acc h; simpa using h
  | cons e rest ih =>
    intro acc h
    simp only [List.foldl_cons]
    exact ih _ (h.trans (le_max_right _ _))

lemma strokeFormat_mono (st : ModifierContextState) (sl : Option (List Stroke))
    (r : Bool × List Stroke × ModifierContextState)
    (h : Stroke.format sl st = some r) :
    stateLe st r.2.2 := by
  match sl with
  | none =>
    rw [show Stroke.format none st = some (false, [], st) from rfl] at h
    cases h
    exact stateLe_refl st
  | some [] =>
    rw [show Stroke.format (some []) st = some (false, [], st) from rfl] at h
    cases h
    exact stateLe_refl st
  | some (s :: rest) =>
    simp only [Stroke.format] at h
    rcases hm : strokeListMap (s :: rest) with _ | entries
    · rw [hm] at h
      cases h
    · rw [hm] at h
      simp only [Option.some_inj] at h
      subst h
      refine ⟨?_, le_refl _, le_refl _, le_refl _⟩
      simp only
      linarith [foldl_max_nonneg entries 0 (le_refl 0)]

lemma parenStep_mono (xl xr : ℚ) (p : Parenthesis) :
    xl ≤ (parenStep xl xr p).1.1 ∧ xr ≤ (parenStep xl xr p).1.2 := by
  rcases p with ⟨w, x, pos, lp, rp⟩
  cases pos <;>
    (simp [parenStep]
     repeat' apply And.intro
     all_goals (try split) <;> (try linarith))

lemma parenLoop_mono :
    ∀ (ps : List Parenthesis) (xl xr : ℚ),
    xl ≤ (parenLoop xl xr ps).1.1 ∧ xr ≤ (parenLoop xl xr ps).1.2
  | [], xl, xr => ⟨le_refl _, le_refl _⟩
  | p :: ps, xl, xr => by
    have hstep := parenStep_mono xl xr p
    have IH := parenLoop_mono ps (parenStep xl xr p).1.1 (parenStep xl xr p).1.2
    simp only [parenLoop]
    exact ⟨hstep.1.trans IH.1, hstep.2.trans IH.2⟩

lemma parenFormat_mono (st : ModifierContextState) (ps : Option (List Parenthesis)) :
    stateLe st (Parenthesis.format ps st).2.2 := by
  match ps with
  | none => exact stateLe_refl st
  | some [] => exact stateLe_refl st
  | some (p :: ps0) =>
    have hm := parenLoop_mono (p :: ps0) 0 0
    show stateLe st
      { st with leftShift := st.leftShift + (parenLoop 0 0 (p :: ps0)).1.1,
                rightShift := st.rightShift + (parenLoop 0 0 (p :: ps0)).1.2 }
    refine ⟨?_, ?_, le_refl _, le_refl _⟩
    · simp only
      linarith [hm.1]
    · simp only
      linarith [hm.2]

/-- C9: assuming the looked-up padding metric and every annotation width are
nonnegative (for a bend, its intrinsic width is the sum of its phrase element
widths), every category placement function (`ChordSymbol.format`,
`Ornament.format`, `Bend.format`, `Stroke.format`, `Parenthesis.format`)
leaves every accumulator field of the shared layout state (`leftShift`,
`rightShift`, `textLine`, `topTextLine`) at or above its value on entry. -/
theorem C9_state_monotone (mp : ℚ) (hmp : 0 ≤ mp) (st : ModifierContextState) :
    (∀ os : Option (List Ornament), (∀ o ∈ os.getD [], 0 ≤ o.width) →
       stateLe st (Ornament.format mp os st).2.2)
    ∧ (∀ ss : Option (List ChordSymbol), stateLe st (ChordSymbol.format mp ss st).2.2)
    ∧ (∀ bs : Option (List Bend), (∀ b ∈ bs.getD [], 0 ≤ b.phrase.sum) →
       stateLe st (Bend.format bs st).2.2)
    ∧ (∀ sl : Option (List Stroke), ∀ r, Stroke.format sl st = some r → stateLe st r.2.2)
    ∧ (∀ ps : Option (List Parenthesis), stateLe st (Parenthesis.format ps st).2.2) :=
  ⟨fun os hw => ornamentFormat_mono mp hmp st os hw,
   fun ss => chordSymbolFormat_mono mp st ss,
   fun bs hw => bendFormat_mono st bs hw,
   fun sl r h => strokeFormat_mono st sl r h,
   fun ps => parenFormat_mono st ps⟩

/-- Witness for C9: a concrete RIGHT ornament of width 6 on a nonzero state;
the padding-nonnegativity and width-nonnegativity hypotheses are discharged
concretely. -/
theorem C9_state_monotone_witness :
    stateLe ⟨1, 2, 3, 4⟩
      (Ornament.format 2 (some [⟨ModifierPosition.right, 0, 6, 0⟩]) ⟨1, 2, 3, 4⟩).2.2 :=
  (C9_state_monotone 2 (by norm_num) ⟨1, 2, 3, 4⟩).1
    (some [⟨ModifierPosition.right, 0, 6, 0⟩])
    (by intro o ho
        simp only [Option.getD_some, List.mem_singleton] at ho
        rw [ho]
        norm_num)

/-! ### Tuplet (src/src/tuplet.ts) -/

/-- `Stem.UP` / `Stem.DOWN` as far as `Tuplet.getYPosition` is concerned
(it only compares `note.getStemDirection()` with `Stem.UP`). -/
inductive StemDirection where
  | up
  | down
deriving DecidableEq, Repr

/-- `note.getStemExtents()`. -/
structure StemExtents where
  topY : ℚ
  baseY : ℚ

/-- The data `Tuplet.getNestedTupletCount` and `Tuplet.getYPosition` read
from a member note: the locations of the tuplets on `note.getTupletStack()`,
stem/rest flags, stem extents, the optional modifier-context state, and the
note's `getYForTopText` and its stave's `getYForLine` measures. -/
structure TNote where
  tupletStack : List ℤ
  hasStem : Bool
  isRest : Bool
  stemDirection : StemDirection
  stemExtents : StemExtents
  modifierContext : Option ModifierContextState
  yForTopText : ℚ → ℚ
  staveYForLine : ℚ → ℚ

/-- The fields of a `Tuplet` used by `getYPosition`: the member notes, the
location (`+1` TOP / `-1` BOTTOM, enforced by `setTupletLocation`), and the
manual `options.yOffset || 0`. -/
structure Tuplet where
  notes : List TNote
  location : ℤ
  yOffset : ℚ

/-- `Tables.STAVE_LINE_DISTANCE` (src/src/font.ts line 984). -/
def STAVE_LINE_DISTANCE : ℚ := 10

/-- `Tuplet.NESTING_OFFSET` (src/src/tuplet.ts lines 101-103). -/
def NESTING_OFFSET : ℚ := 15

/-- The local `countTuplets` of `getNestedTupletCount`: how many tuplets on
the note's tuplet stack sit at the given location. -/
def countTuplets (n : TNote) (location : ℤ) : ℕ :=
  (n.tupletStack.filter (fun loc => loc = location)).length

/-- `Tuplet.getNestedTupletCount` (src/src/tuplet.ts lines 221-240): the
difference between the maximum and the minimum, over the member notes, of the
number of same-side tuplets on each note's stack.  `none` models the crash on
an (impossible by construction) empty note list. -/
def Tuplet.getNestedTupletCount (t : Tuplet) : Option ℕ :=
  match t.notes with
  | [] => none
  | f :: _ =>
    let c0 := countTuplets f t.location
    let maxC := t.notes.foldl (fun m n => max m (countTuplets n t.location)) c0
    let minC := t.notes.foldl (fun m n => min m (countTuplets n t.location)) c0
    some (maxC - minC)

/-- The base `yPosition` computed by the TOP/BOTTOM branch of
`Tuplet.getYPosition` (src/src/tuplet.ts lines 251-300), before the nesting
offset and the manual offset are added.  It never reads the notes' tuplet
stacks. -/
def tupletBaseY (t : Tuplet) : Option ℚ :=
  match t.notes with
  | [] => none
  | f :: _ =>
    if t.location = 1 then
      let y0 := f.staveYForLine 0 - 1.5 * STAVE_LINE_DISTANCE
      some (t.notes.foldl (fun y n =>
        let modLines : ℚ :=
          match n.modifierContext with
          | some mc => max 0 mc.topTextLine
          | none => 0
        let modY := n.yForTopText modLines - 2 * STAVE_LINE_DISTANCE
        if n.hasStem || n.isRest then
          let topY :=
            if n.stemDirection = StemDirection.up then
              n.stemExtents.topY - STAVE_LINE_DISTANCE
            else n.stemExtents.baseY - 2 * STAVE_LINE_DISTANCE
          let y1 := min topY y
          if modLines > 0 then min modY y1 else y1
        else y) y0)
    else
      let lineCheck := t.notes.foldl (fun lc n =>
        match n.modifierContext with
        | some mc => max lc (mc.textLine + 1)
        | none => lc) 4
      let y0 := f.staveYForLine lineCheck + 2 * STAVE_LINE_DISTANCE
      some (t.notes.foldl (fun y n =>
        if n.hasStem || n.isRest then
          let bottomY :=
            if n.stemDirection = StemDirection.up then
              n.stemExtents.baseY + 2 * STAVE_LINE_DISTANCE
            else n.stemExtents.topY + STAVE_LINE_DISTANCE
          if bottomY > y then bottomY else y
        else y) y0)

/-- `Tuplet.getYPosition` (src/src/tuplet.ts lines 243-303): the base
position plus `getNestedTupletCount() * NESTING_OFFSET * -location` plus the
manual y-offset. -/
def Tuplet.getYPosition (t : Tuplet) : Option ℚ :=
  match Tuplet.getNestedTupletCount t, tupletBaseY t with
  | some c, some base =>
    some (base + (c : ℚ) * NESTING_OFFSET * (-(t.location : ℚ)) + t.yOffset)
  | _, _ => none

/-- The base y position never depends on the notes' tuplet stacks. -/
lemma tupletBaseY_stack_independent (t : Tuplet) (g : TNote → List ℤ) :
    tupletBaseY { t with notes := t.notes.map (fun n => { n with tupletStack := g n }) }
      = tupletBaseY t := by
  rcases t with ⟨notes, loc, yo⟩
  cases notes with
  | nil => rfl
  | cons f rest =>
    simp only [tupletBaseY, List.map_cons, List.foldl_cons, List.foldl_map]

lemma foldl_max_const (c : ℕ) (loc : ℤ) :
    ∀ l : List TNote, (∀ n ∈ l, countTuplets n loc = c) →
    l.foldl (fun m n => max m (countTuplets n loc)) c = c
  | [], _ => rfl
  | n :: l, h => by
    have hn : countTuplets n loc = c := h n (by simp)
    have := foldl_max_const c loc l (fun x hx => h x (by simp [hx]))
    simp only [List.foldl_cons, hn, max_self]
    exact this

lemma foldl_min_const (c : ℕ) (loc : ℤ) :
    ∀ l : List TNote, (∀ n ∈ l, countTuplets n loc = c) →
    l.foldl (fun m n => min m (countTuplets n loc)) c = c
  | [], _ => rfl
  | n :: l, h => by
    have hn : countTuplets n loc = c := h n (by simp)
    have := foldl_min_const c loc l (fun x hx => h x (by simp [hx]))
    simp only [List.foldl_cons, hn, min_self]
    exact this

/-- Concrete member note for the tuplet examples: a stemmed non-rest note
with stem extents 100/140 on a stave where line `l` sits at `10·l`. -/
def mkTNote (stack : List ℤ) : TNote :=
  ⟨stack, true, false, StemDirection.up, ⟨100, 140⟩, none, fun _ => 0, fun line => line * 10⟩

/-- A tuplet nested exactly one level inside another TOP tuplet: each of its
member notes' stacks holds the two enclosing same-side tuplets. -/
def innerTupletEx : Tuplet := ⟨[mkTNote [1, 1], mkTNote [1, 1]], 1, 0⟩

/-- The enclosing TOP tuplet of the same nesting scenario: its first note is
only in itself, the other two are also in the nested tuplet. -/
def outerTupletEx : Tuplet := ⟨[mkTNote [1], mkTNote [1, 1], mkTNote [1, 1]], 1, 0⟩

/-- C3 counterexample: a tuplet nested exactly one level inside another
same-side tuplet receives **no** extra vertical offset — its nested-count is
0 (all member notes carry the same stack), so `getYPosition` returns exactly
the base position (−15 here), not base − 15 as the claim's "in particular"
sentence requires. -/
theorem C3_nesting_counterexample :
    Tuplet.getNestedTupletCount innerTupletEx = some 0
    ∧ tupletBaseY innerTupletEx = some (-15)
    ∧ Tuplet.getYPosition innerTupletEx = some (-15) := by
  refine ⟨by decide, ?_, ?_⟩
  · simp [tupletBaseY, innerTupletEx, mkTNote, STAVE_LINE_DISTANCE, min_def]
    norm_num
  · have h0 : Tuplet.getNestedTupletCount innerTupletEx = some 0 := by decide
    have h1 : tupletBaseY innerTupletEx = some (-15) := by
      simp [tupletBaseY, innerTupletEx, mkTNote, STAVE_LINE_DISTANCE, min_def]
      norm_num
    rw [Tuplet.getYPosition, h0, h1]
    norm_num [innerTupletEx]

/-- C3 amended: `Tuplet.getYPosition` adds to a base position (computed from
the notes' stems, rests and modifier contexts, and independent of the tuplet
stacks) an extra offset of `NESTING_OFFSET = 15` per unit of the difference
between the maximum and minimum same-side stack counts over the member notes,
directed away from the notes (`× −location`), plus the manual y-offset.  When
every member note carries the same same-side count — as for a tuplet nested
inside another tuplet spanning exactly the same notes — that difference is 0,
so the extra offset falls on the *enclosing* tuplet (whose counts differ),
not on the nested one. -/
theorem C3_nesting_offset (t : Tuplet) (nc : ℕ) (base : ℚ)
    (hb : tupletBaseY t = some base)
    (hnc : Tuplet.getNestedTupletCount t = some nc)
    (g : TNote → List ℤ) :
    Tuplet.getYPosition t
      = some (base + (nc : ℚ) * NESTING_OFFSET * (-(t.location : ℚ)) + t.yOffset)
    ∧ tupletBaseY { t with notes := t.notes.map (fun n => { n with tupletStack := g n }) }
      = some base
    ∧ (∀ c : ℕ, (∀ n ∈ t.notes, countTuplets n t.location = c) → nc = 0) := by
  refine ⟨?_, ?_, ?_⟩
  · rw [Tuplet.getYPosition, hnc, hb]
  · rw [tupletBaseY_stack_independent, hb]
  · intro c hc
    rcases ht : t.notes with _ | ⟨f, rest⟩
    · rw [Tuplet.getNestedTupletCount, ht] at hnc
      cases hnc
    · rw [Tuplet.getNestedTupletCount, ht] at hnc
      simp only [Option.some_inj] at hnc
      have hf : countTuplets f t.location = c := hc f (by rw [ht]; simp)
      have hall : ∀ n ∈ f :: rest, countTuplets n t.location = c := by
        intro n hn; exact hc n (by rw [ht]; exact hn)
      rw [hf] at hnc
      rw [foldl_max_const c t.location (f :: rest) hall,
        foldl_min_const c t.location (f :: rest) hall] at hnc
      omega

/-- Witness for C3's amended theorem at the enclosing tuplet of the concrete
nesting scenario: its nested-count is 1, so it is placed one `NESTING_OFFSET`
further from the notes. -/
theorem C3_nesting_offset_witness :
    Tuplet.getYPosition outerTupletEx
      = some ((-15 : ℚ) + ((1 : ℕ) : ℚ) * NESTING_OFFSET * (-(outerTupletEx.location : ℚ))
              + outerTupletEx.yOffset)
    ∧ tupletBaseY { outerTupletEx with
        notes := outerTupletEx.notes.map (fun n => { n with tupletStack := (fun _ => []) n }) }
      = some (-15 : ℚ)
    ∧ (∀ c : ℕ, (∀ n ∈ outerTupletEx.notes, countTuplets n outerTupletEx.location = c)
        → (1 : ℕ) = 0) :=
  C3_nesting_offset outerTupletEx 1 (-15)
    (by simp [tupletBaseY, outerTupletEx, mkTNote, STAVE_LINE_DISTANCE, min_def]
        norm_num)
    (by decide) (fun _ => [])

/-! ### Metric lookup (src/src/font.ts)

A JS metrics table is a tree of numbers, strings and nested objects.  A
period-delimited key (`'a.b.c'`) is modelled directly by its list of parts
(`["a", "b", "c"]`), which is what `key.split('.')` produces in the source.
-/

/-- A value in a metrics file: a number, a string, or a nested object. -/
inductive MetricValue where
  | num (q : ℚ)
  | str (s : String)
  | obj (entries : List (String × MetricValue))

/-- JS truthiness of a metric value: the number 0 and the empty string are
falsy, every object is truthy. -/
def truthy : MetricValue → Bool
  | MetricValue.num q => q ≠ 0
  | MetricValue.str s => s ≠ ""
  | MetricValue.obj _ => true

/-- JS truthiness of a possibly-`undefined` value. -/
def truthyOpt : Option MetricValue → Bool
  | none => false
  | some v => truthy v

/-- `currObj[keyPart]`: property access on the current value.  Indexing a
number or string primitive with a metric key part yields `undefined`. -/
def lookupChild : MetricValue → String → Option MetricValue
  | MetricValue.obj entries, k => entries.lookup k
  | _, _ => none

/-- The inner drill-down loop shared by `Font.lookupMetric` (src/src/font.ts
lines 476-494) and `Tables.lookupMetric` (lines 1007-1034): follow every key
part, `undefined` as soon as one lookup fails. -/
def drill : MetricValue → List String → Option MetricValue
  | cur, [] => some cur
  | cur, k :: rest =>
    match lookupChild cur k with
    | none => none
    | some v => drill v rest

/-- `Font.lookupMetric(key, defaultValue)` (src/src/font.ts lines 476-494)
over the font's metrics tree, with the key pre-split at periods. -/
def Font.lookupMetric (metrics : MetricValue) (keyParts : List String)
    (defaultValue : Option MetricValue) : Option MetricValue :=
  match drill metrics keyParts with
  | none => defaultValue
  | some v => some v

/-- The key-shortening step of `Tables.lookupMetric` (src/src/font.ts lines
1026-1029): replace the second-to-last part by the last, then pop. -/
def shortenKey (parts : List String) : List String :=
  if parts.length ≤ 1 then []
  else parts.take (parts.length - 2) ++ [parts.getLastD ""]

lemma shortenKey_length (parts : List String) (h : parts ≠ []) :
    (shortenKey parts).length < parts.length := by
  have hp : 0 < parts.length := List.length_pos.mpr h
  rw [shortenKey]
  split
  · simpa using hp
  · rename_i hgt
    simp only [List.length_append, List.length_take, List.length_cons, List.length_nil]
    omega

/-- The `while (!currObj && keyParts.length)` loop of `Tables.lookupMetric`
(src/src/font.ts lines 1012-1030): drill the current key, and while the
result is falsy retry with the shortened fallback key. -/
def tablesLoop (table : MetricValue) (currObj : Option MetricValue)
    (parts : List String) : Option MetricValue :=
  if truthyOpt currObj || parts.isEmpty then currObj
  else tablesLoop table (drill table parts) (shortenKey parts)
termination_by parts.length
decreasing_by
  rename_i h
  simp only [Bool.or_eq_true, not_or, Bool.not_eq_true] at h
  exact shortenKey_length parts (by
    intro hc
    rw [hc] at h
    simp at h)

/-- `Tables.lookupMetric(key, defaultValue)` (src/src/font.ts lines
1007-1034) over a table, with the key pre-split at periods: run the fallback
loop, then return the retrieved value if truthy, the default otherwise. -/
def Tables.lookupMetric (table : MetricValue) (keyParts : List String)
    (defaultValue : Option MetricValue) : Option MetricValue :=
  let r := tablesLoop table none keyParts
  if truthyOpt r then r else defaultValue

/-- All keys the fallback loop of `Tables.lookupMetric` can try, in order. -/
def fallbackSeq (parts : List String) : List (List String) :=
  if h : parts = [] then []
  else parts :: fallbackSeq (shortenKey parts)
termination_by parts.length
decreasing_by exact shortenKey_length parts h

/-- The `CommonMetrics` table of src/src/font.ts (lines 516-580). -/
def CommonMetrics : MetricValue := MetricValue.obj [
  ("fontFamily", MetricValue.str "Bravura"),
  ("fontSize", MetricValue.num 30),
  ("fontWeight", MetricValue.str "normal"),
  ("fontStyle", MetricValue.str "normal"),
  ("stave", MetricValue.obj [("padding", MetricValue.num 12),
    ("endPaddingMax", MetricValue.num 10), ("endPaddingMin", MetricValue.num 5),
    ("unalignedNotePadding", MetricValue.num 10)]),
  ("Accidental", MetricValue.obj [("cautionary", MetricValue.obj [("fontSize", MetricValue.num 28)]),
    ("rightPadding", MetricValue.num 1), ("leftPadding", MetricValue.num 2),
    ("spacing", MetricValue.num 3)]),
  ("Annotation", MetricValue.obj [("fontSize", MetricValue.num 10)]),
  ("Bend", MetricValue.obj [("fontSize", MetricValue.num 10)]),
  ("ChordSymbol", MetricValue.obj [("fontSize", MetricValue.num 12),
    ("superscriptOffset", MetricValue.num (-0.4)), ("subscriptOffset", MetricValue.num 0.3),
    ("spacing", MetricValue.num 0.05), ("superSubRatio", MetricValue.num 0.66)]),
  ("FretHandFinger", MetricValue.obj [("fontSize", MetricValue.num 9),
    ("fontWeight", MetricValue.str "bold")]),
  ("PedalMarking", MetricValue.obj [("fontSize", MetricValue.num 12),
    ("fontWeight", MetricValue.str "bold"), ("fontStyle", MetricValue.str "italic")]),
  ("Repetition", MetricValue.obj [("fontSize", MetricValue.num 12),
    ("fontWeight", MetricValue.str "bold"),
    ("symbolText", MetricValue.obj [("offsetX", MetricValue.num 12),
      ("offsetY", MetricValue.num 25), ("spacing", MetricValue.num 5)]),
    ("coda", MetricValue.obj [("offsetY", MetricValue.num 25)]),
    ("segno", MetricValue.obj [("offsetY", MetricValue.num 10)])]),
  ("Stave", MetricValue.obj [("fontSize", MetricValue.num 8)]),
  ("StaveConnector", MetricValue.obj [("fontSize", MetricValue.num 16)]),
  ("StaveTempo", MetricValue.obj [("fontSize", MetricValue.num 14),
    ("fontWeight", MetricValue.str "bold")]),
  ("StaveText", MetricValue.obj [("fontSize", MetricValue.num 16)]),
  ("StaveSection", MetricValue.obj [("fontSize", MetricValue.num 10),
    ("fontWeight", MetricValue.str "bold")]),
  ("StringNumber", MetricValue.obj [("fontSize", MetricValue.num 10),
    ("fontWeight", MetricValue.str "bold")]),
  ("Strokes", MetricValue.obj [("text", MetricValue.obj [("fontSize", MetricValue.num 10),
    ("fontStyle", MetricValue.str "italic")])]),
  ("TabNote", MetricValue.obj [("fontSize", MetricValue.num 9)]),
  ("TabSlide", MetricValue.obj [("fontSize", MetricValue.num 10),
    ("fontStyle", MetricValue.str "italic")]),
  ("TextBracket", MetricValue.obj [("fontSize", MetricValue.num 15),
    ("fontStyle", MetricValue.str "italic")]),
  ("TextNote", MetricValue.obj [("fontSize", MetricValue.num 12)]),
  ("Volta", MetricValue.obj [("fontSize", MetricValue.num 9),
    ("fontWeight", MetricValue.str "bold")]),
  ("tremolo", MetricValue.obj [
    ("default", MetricValue.obj [("spacing", MetricValue.num 7),
      ("offsetYStemUp", MetricValue.num (-8)), ("offsetYStemDown", MetricValue.num 8),
      ("offsetXStemUp", MetricValue.num 11), ("offsetXStemDown", MetricValue.num 1)]),
    ("grace", MetricValue.obj [("spacing", MetricValue.num (21 / 5)),
      ("offsetYStemUp", MetricValue.num (-24 / 5)), ("offsetYStemDown", MetricValue.num (24 / 5)),
      ("offsetXStemUp", MetricValue.num 7), ("offsetXStemDown", MetricValue.num 1)])]),
  ("noteHead", MetricValue.obj [("minPadding", MetricValue.num 2)]),
  ("stringNumber", MetricValue.obj [("verticalPadding", MetricValue.num 8),
    ("stemPadding", MetricValue.num 2), ("leftPadding", MetricValue.num 5),
    ("rightPadding", MetricValue.num 6)])]

/-- If every key the fallback loop can try drills to a falsy (or missing)
value, the loop's result is falsy. -/
lemma tablesLoop_nontruthy (table : MetricValue) (parts : List String)
    (cur : Option MetricValue) (hc : truthyOpt cur = false)
    (hall : ∀ ps ∈ fallbackSeq parts, truthyOpt (drill table ps) = false) :
    truthyOpt (tablesLoop table cur parts) = false := by
  rw [tablesLoop]
  split
  · exact hc
  · rename_i h
    have hne : parts ≠ [] := by
      intro hcc
      rw [hcc] at h
      simp [hc] at h
    have hdr : truthyOpt (drill table parts) = false := by
      apply hall parts
      rw [fallbackSeq]
      simp [hne]
    have hrest : ∀ ps ∈ fallbackSeq (shortenKey parts),
        truthyOpt (drill table ps) = false := by
      intro ps hps
      apply hall ps
      rw [fallbackSeq]
      simp [hne]
      exact Or.inr hps
    exact tablesLoop_nontruthy table (shortenKey parts) (drill table parts) hdr hrest
termination_by parts.length
decreasing_by exact shortenKey_length parts hne

/-- C8 counterexample: the key `Foo.fontSize` is not present in the metrics
table (its drill-down fails), yet `Tables.lookupMetric` does not return the
caller-supplied default 99 — the fallback loop shortens the key to `fontSize`
and returns the top-level value 30. -/
theorem C8_missing_key_counterexample :
    drill CommonMetrics ["Foo", "fontSize"] = none
    ∧ Tables.lookupMetric CommonMetrics ["Foo", "fontSize"] (some (MetricValue.num 99))
        = some (MetricValue.num 30) := by
  constructor
  · rfl
  · rw [Tables.lookupMetric, tablesLoop, tablesLoop, tablesLoop]
    rfl

/-- C8 amended: `Font.lookupMetric` returns the caller-supplied default (and
never throws — it is a total function here) whenever the key's drill-down
fails; `Tables.lookupMetric` first retries the progressively shortened
fallback keys and returns the caller-supplied default exactly when no
fallback key resolves to a truthy value. -/
theorem C8_missing_key_defaults (metrics table : MetricValue)
    (keyParts : List String) (d1 d2 : Option MetricValue)
    (hmiss : drill metrics keyParts = none)
    (hallmiss : ∀ ps ∈ fallbackSeq keyParts, truthyOpt (drill table ps) = false) :
    Font.lookupMetric metrics keyParts d1 = d1
    ∧ Tables.lookupMetric table keyParts d2 = d2 := by
  constructor
  · rw [Font.lookupMetric, hmiss]
  · have h := tablesLoop_nontruthy table keyParts none rfl hallmiss
    rw [Tables.lookupMetric]
    simp [h]

/-- Witness for C8's amended theorem: the key `Foo.bar` and all its fallbacks
are absent from `CommonMetrics`, so both lookups return the default 99. -/
theorem C8_missing_key_defaults_witness :
    Font.lookupMetric CommonMetrics ["Foo", "bar"] (some (MetricValue.num 99))
      = some (MetricValue.num 99)
    ∧ Tables.lookupMetric CommonMetrics ["Foo", "bar"] (some (MetricValue.num 99))
      = some (MetricValue.num 99) :=
  C8_missing_key_defaults CommonMetrics CommonMetrics ["Foo", "bar"] _ _ rfl
    (by
      have hfs : fallbackSeq ["Foo", "bar"] = [["Foo", "bar"], ["bar"]] := by
        rw [fallbackSeq, fallbackSeq, fallbackSeq]
        rfl
      intro ps hps
      rw [hfs] at hps
      simp only [List.mem_cons, List.mem_singleton, List.not_mem_nil, or_false] at hps
      rcases hps with h | h <;> (subst h; rfl))

/-- A metrics table holding a stored 0 at `a.b` and a truthy fallback at the
top-level key `b`. -/
def fallbackTable : MetricValue :=
  MetricValue.obj [("a", MetricValue.obj [("b", MetricValue.num 0)]),
    ("b", MetricValue.num 5)]

/-- A metrics table holding a stored 0 at `a.b` and no fallback keys. -/
def falsyTable : MetricValue :=
  MetricValue.obj [("a", MetricValue.obj [("b", MetricValue.num 0)])]

/-- C10 counterexample: the key `a.b` is present with the stored (falsy)
value 0, but `Tables.lookupMetric` returns neither the stored 0 nor the
caller-supplied default 7 — the falsy value restarts the fallback search,
which here resolves the shortened key `b` to 5. -/
theorem C10_falsy_counterexample :
    drill fallbackTable ["a", "b"] = some (MetricValue.num 0)
    ∧ Tables.lookupMetric fallbackTable ["a", "b"] (some (MetricValue.num 7))
        = some (MetricValue.num 5) := by
  constructor
  · rfl
  · rw [Tables.lookupMetric, tablesLoop, tablesLoop, tablesLoop]
    rfl

/-- C10 amended: a key present with a falsy stored value (such as the number
0) is treated exactly like a missing key: the stored value is never returned
and the fallback search continues; the caller-supplied default is returned
exactly when no shortened fallback key resolves to a truthy value. -/
theorem C10_falsy_as_missing (table : MetricValue) (keyParts : List String)
    (d : Option MetricValue) (v : MetricValue)
    (hv : drill table keyParts = some v) (hfalsy : truthy v = false)
    (hrest : ∀ ps ∈ fallbackSeq (shortenKey keyParts),
      truthyOpt (drill table ps) = false) :
    Tables.lookupMetric table keyParts d = d := by
  have hloop : truthyOpt (tablesLoop table none keyParts) = false := by
    cases keyParts with
    | nil =>
      rw [tablesLoop]
      simp [truthyOpt]
    | cons k rest =>
      rw [tablesLoop]
      have hcur : truthyOpt (drill table (k :: rest)) = false := by
        rw [hv]
        simpa [truthyOpt] using hfalsy
      simp only [truthyOpt, List.isEmpty_cons, Bool.or_false]
      exact tablesLoop_nontruthy table (shortenKey (k :: rest))
        (drill table (k :: rest)) hcur hrest
  rw [Tables.lookupMetric]
  simp [hloop]

/-- Witness for C10's amended theorem: in a table where `a.b` stores 0 and no
fallback key exists, the lookup returns the default 7 — the stored 0 behaves
exactly like a missing key. -/
theorem C10_falsy_as_missing_witness :
    Tables.lookupMetric falsyTable ["a", "b"] (some (MetricValue.num 7))
      = some (MetricValue.num 7) :=
  C10_falsy_as_missing falsyTable ["a", "b"] (some (MetricValue.num 7))
    (MetricValue.num 0) rfl rfl
    (by
      have hfs : fallbackSeq (shortenKey ["a", "b"]) = [["b"]] := by
        have h1 : shortenKey ["a", "b"] = ["b"] := rfl
        rw [h1, fallbackSeq, fallbackSeq]
        rfl
      intro ps hps
      rw [hfs] at hps
      simp only [List.mem_singleton] at hps
      subst hps
      rfl)

/-! ### Justification engine (C4)

Modelled from the spec: the justification engine (the `Formatter`/
`TickContext` two-pass width distribution of §4.2) is code of this repository
that is not under src/ — only callers of `Formatter` appear there — so the
definitions below follow the spec's words: per-slice minimum widths are
summed to a floor; below the floor every slice is placed at its minimum with
overflow flagged; otherwise the surplus `targetWidth − floor` is distributed
proportionally to the slices' duration-derived weights. -/

/-- Modelled from the spec: a TimeSlice's preformatting data — its minimum
required width and its proportional weight derived from event duration. -/
structure TimeSlice where
  minWidth : ℚ
  weight : ℚ

/-- Modelled from the spec: the floor — the sum of per-slice minimum widths. -/
def widthFloor (slices : List TimeSlice) : ℚ :=
  (slices.map TimeSlice.minWidth).sum

/-- Modelled from the spec: the total proportional weight of the slices. -/
def totalWeight (slices : List TimeSlice) : ℚ :=
  (slices.map TimeSlice.weight).sum

/-- Modelled from the spec: the justification report — the allocated width
per slice and whether overflow occurred (`floor > targetWidth`). -/
structure JustifyReport where
  widths : List ℚ
  overflow : Bool

/-- Modelled from the spec: the two-pass justification.  If `targetWidth`
is below the floor, slices are placed at their minimums and overflow is
flagged (allowed, not an error); otherwise each slice receives its minimum
plus a surplus share proportional to its weight. -/
def justify (slices : List TimeSlice) (targetWidth : ℚ) : JustifyReport :=
  let floor := widthFloor slices
  if targetWidth < floor then
    ⟨slices.map TimeSlice.minWidth, true⟩
  else
    let surplus := targetWidth - floor
    ⟨slices.map (fun s => s.minWidth + surplus * s.weight / totalWeight slices), false⟩

lemma sum_alloc (c : ℚ) :
    ∀ slices : List TimeSlice,
    (slices.map (fun s => s.minWidth + c * s.weight)).sum
      = widthFloor slices + c * totalWeight slices
  | [] => by simp [widthFloor, totalWeight]
  | s :: rest => by
    have ih := sum_alloc c rest
    simp only [List.map_cons, List.sum_cons, widthFloor, totalWeight] at *
    rw [ih]
    ring

/-- C4: with positive total weight, the allocated slice widths sum to the
caller-supplied `targetWidth` whenever it is at least the floor (no overflow
flagged), and to the floor itself, with overflow flagged, whenever
`targetWidth` is below the floor. -/
theorem C4_width_conservation (slices : List TimeSlice) (targetWidth : ℚ)
    (hw : 0 < totalWeight slices) :
    (widthFloor slices ≤ targetWidth →
       (justify slices targetWidth).widths.sum = targetWidth
       ∧ (justify slices targetWidth).overflow = false)
    ∧ (targetWidth < widthFloor slices →
       (justify slices targetWidth).widths.sum = widthFloor slices
       ∧ (justify slices targetWidth).overflow = true) := by
  constructor
  · intro hle
    have hnlt : ¬ targetWidth < widthFloor slices := not_lt.mpr hle
    have hmap : slices.map (fun s =>
          s.minWidth + (targetWidth - widthFloor slices) * s.weight / totalWeight slices)
        = slices.map (fun s =>
          s.minWidth + ((targetWidth - widthFloor slices) / totalWeight slices) * s.weight) := by
      apply List.map_congr_left
      intro s _
      ring
    constructor
    · rw [justify]
      simp only [hnlt, if_false]
      rw [hmap, sum_alloc]
      rw [div_mul_cancel₀ _ (ne_of_gt hw)]
      ring
    · rw [justify]
      simp [hnlt]
  · intro hlt
    constructor
    · rw [justify]
      simp only [hlt, if_true]
      rfl
    · rw [justify]
      simp [hlt]

/-- Witness for C4 at the spec's §8 example: three slices with weights
[1, 1, 2], floor 60 and target 100 (surplus 40). -/
theorem C4_width_conservation_witness :
    (widthFloor [⟨10, 1⟩, ⟨20, 1⟩, ⟨30, 2⟩] ≤ (100 : ℚ) →
       (justify [⟨10, 1⟩, ⟨20, 1⟩, ⟨30, 2⟩] 100).widths.sum = 100
       ∧ (justify [⟨10, 1⟩, ⟨20, 1⟩, ⟨30, 2⟩] 100).overflow = false)
    ∧ ((100 : ℚ) < widthFloor [⟨10, 1⟩, ⟨20, 1⟩, ⟨30, 2⟩] →
       (justify [⟨10, 1⟩, ⟨20, 1⟩, ⟨30, 2⟩] 100).widths.sum
         = widthFloor [⟨10, 1⟩, ⟨20, 1⟩, ⟨30, 2⟩]
       ∧ (justify [⟨10, 1⟩, ⟨20, 1⟩, ⟨30, 2⟩] 100).overflow = true) :=
  C4_width_conservation [⟨10, 1⟩, ⟨20, 1⟩, ⟨30, 2⟩] 100
    (by norm_num [totalWeight])

end VexFlow
